import Mathlib

/-!
Verification of the bounding-box camera geometry pipeline
(`Ogre2BoundingBoxCamera` / `Ogre2BoundingBoxCameraPrivate`).

The embedding models the pure geometric/algorithmic core:
Cohen–Sutherland viewport clipping, visibility-buffer scanning,
2D box merging, Bresenham line drawing, and the full-projection
screen conversion.  `double` arithmetic is modelled by `ℚ`; unsigned
32-bit quantities are modelled by `ℕ` with explicit `% 2^32` where the
source wraps.  The NaN rejection sentinel returned by `ClipToViewPort`
is modelled by a dedicated `ClipOutcome.rejected` constructor (the
caller `AddToViewportLines` only tests finiteness of the result, so the
sentinel is observationally an option-type `none`).
-/

namespace GzBBox

/-- Viewport bounds, in the order the source stores them in its
`math::Vector4d`: `xmin, ymin, xmax, ymax`. -/
structure Bounds where
  xmin : ℚ
  ymin : ℚ
  xmax : ℚ
  ymax : ℚ
deriving DecidableEq

/-- A well-formed viewport rectangle: `xmin ≤ xmax` and `ymin ≤ ymax`. -/
def Bounds.Valid (b : Bounds) : Prop := b.xmin ≤ b.xmax ∧ b.ymin ≤ b.ymax

instance (b : Bounds) : Decidable b.Valid := by
  unfold Bounds.Valid; infer_instance

/-- Horizontal part of the outcode computed by
`Ogre2BoundingBoxCameraPrivate::LocationRelativeToViewPort`:
`kLeft = 1` when `x < xmin`, else `kRight = 2` when `x > xmax`. -/
def hcode (b : Bounds) (x : ℚ) : ℕ :=
  if x < b.xmin then 1 else if x > b.xmax then 2 else 0

/-- Vertical part of the outcode computed by
`Ogre2BoundingBoxCameraPrivate::LocationRelativeToViewPort`:
`kBottom = 4` when `y < ymin`, else `kTop = 8` when `y > ymax`. -/
def vcode (b : Bounds) (y : ℚ) : ℕ :=
  if y < b.ymin then 4 else if y > b.ymax then 8 else 0

/-- `Ogre2BoundingBoxCameraPrivate::LocationRelativeToViewPort`: the
4-bit Cohen–Sutherland outcode of a point, a bitwise OR of
`kInside = 0`, `kLeft = 1`, `kRight = 2`, `kBottom = 4`, `kTop = 8`. -/
def locationRelativeToViewPort (b : Bounds) (x y : ℚ) : ℕ :=
  hcode b x ||| vcode b y

/-- The mutable local state of the `while (true)` loop inside
`Ogre2BoundingBoxCameraPrivate::ClipToViewPort`: the two endpoints and
their outcodes. -/
structure ClipState where
  x0 : ℚ
  y0 : ℚ
  x1 : ℚ
  y1 : ℚ
  loc0 : ℕ
  loc1 : ℕ
deriving DecidableEq

/-- Result of one iteration of the clipping loop. -/
inductive ClipIterResult where
  | accept (p q : ℚ × ℚ)
  | reject
  | divzero
  | next (s : ClipState)
deriving DecidableEq

/-- The final `if (outerLocation == location0)` update of
`ClipToViewPort`: overwrite whichever endpoint was chosen as the
outside point with the intersection point and recompute its outcode. -/
def updateOuter (b : Bounds) (s : ClipState) (outerLocation : ℕ) (x y : ℚ) : ClipState :=
  if outerLocation = s.loc0 then
    { s with x0 := x, y0 := y, loc0 := locationRelativeToViewPort b x y }
  else
    { s with x1 := x, y1 := y, loc1 := locationRelativeToViewPort b x y }

/-- One iteration of the `while (true)` loop of
`Ogre2BoundingBoxCameraPrivate::ClipToViewPort`.  The source divides
`double`s without a guard (its comment argues the denominator is
nonzero); the exact-arithmetic embedding makes a zero denominator an
explicit `divzero` result so that the no-division-by-zero guarantee is
a provable statement.  The final `else` is the defensive
internal-error branch (`ignerr` + `break` with `accept == false`). -/
def clipIter (b : Bounds) (s : ClipState) : ClipIterResult :=
  if s.loc0 ||| s.loc1 = 0 then
    .accept (s.x0, s.y0) (s.x1, s.y1)
  else if s.loc0 &&& s.loc1 ≠ 0 then
    .reject
  else
    let outerLocation := if s.loc1 > s.loc0 then s.loc1 else s.loc0
    if outerLocation &&& 8 ≠ 0 then
      if s.y1 - s.y0 = 0 then .divzero else
      .next (updateOuter b s outerLocation
        (s.x0 + (s.x1 - s.x0) * (b.ymax - s.y0) / (s.y1 - s.y0)) b.ymax)
    else if outerLocation &&& 4 ≠ 0 then
      if s.y1 - s.y0 = 0 then .divzero else
      .next (updateOuter b s outerLocation
        (s.x0 + (s.x1 - s.x0) * (b.ymin - s.y0) / (s.y1 - s.y0)) b.ymin)
    else if outerLocation &&& 2 ≠ 0 then
      if s.x1 - s.x0 = 0 then .divzero else
      .next (updateOuter b s outerLocation b.xmax
        (s.y0 + (s.y1 - s.y0) * (b.xmax - s.x0) / (s.x1 - s.x0)))
    else if outerLocation &&& 1 ≠ 0 then
      if s.x1 - s.x0 = 0 then .divzero else
      .next (updateOuter b s outerLocation b.xmin
        (s.y0 + (s.y1 - s.y0) * (b.xmin - s.x0) / (s.x1 - s.x0)))
    else
      .reject

/-- Outcome of `ClipToViewPort`: `accepted` is the finite clipped pair,
`rejected` the NaN sentinel pair, `divzero` marks an (unreachable)
division by zero, and `stuck` marks exhaustion of the iteration fuel
used to model the unbounded `while (true)` loop. -/
inductive ClipOutcome where
  | accepted (p q : ℚ × ℚ)
  | rejected
  | divzero
  | stuck
deriving DecidableEq

/-- The clipping loop, driven by explicit fuel; the termination theorem
shows fuel 5 always suffices. -/
def clipLoop (b : Bounds) : ℕ → ClipState → ClipOutcome
  | 0, _ => .stuck
  | fuel + 1, s =>
    match clipIter b s with
    | .accept p q => .accepted p q
    | .reject => .rejected
    | .divzero => .divzero
    | .next s' => clipLoop b fuel s'

/-- The loop entry state of `ClipToViewPort`: the two endpoints with
their freshly computed outcodes. -/
def initState (b : Bounds) (p0 p1 : ℚ × ℚ) : ClipState :=
  ⟨p0.1, p0.2, p1.1, p1.2,
    locationRelativeToViewPort b p0.1 p0.2,
    locationRelativeToViewPort b p1.1 p1.2⟩

/-- `Ogre2BoundingBoxCameraPrivate::ClipToViewPort`.  Fuel 5 is enough:
each clipping iteration permanently removes one of the four boundary
violations (see `clipLoop_not_stuck`). -/
def clipToViewPort (b : Bounds) (p0 p1 : ℚ × ℚ) : ClipOutcome :=
  clipLoop b 5 (initState b p0 p1)

/-- A state is well formed when the stored outcodes match the stored
coordinates. -/
def ClipState.WF (b : Bounds) (s : ClipState) : Prop :=
  s.loc0 = locationRelativeToViewPort b s.x0 s.y0 ∧
  s.loc1 = locationRelativeToViewPort b s.x1 s.y1

/-- A point is inside the clip rectangle. -/
def Inside (b : Bounds) (p : ℚ × ℚ) : Prop :=
  b.xmin ≤ p.1 ∧ p.1 ≤ b.xmax ∧ b.ymin ≤ p.2 ∧ p.2 ≤ b.ymax

instance (b : Bounds) (p : ℚ × ℚ) : Decidable (Inside b p) := by
  unfold Inside; infer_instance

/-! ### Termination measure

Each clipping iteration permanently removes one of the four boundary
violations of the segment; the number of violated boundaries is the
decreasing measure. -/

/-- Number of clip boundaries violated by at least one endpoint. -/
def clipMeasure (b : Bounds) (x0 y0 x1 y1 : ℚ) : ℕ :=
  (if b.ymax < y0 ∨ b.ymax < y1 then 1 else 0) +
  (if y0 < b.ymin ∨ y1 < b.ymin then 1 else 0) +
  (if b.xmax < x0 ∨ b.xmax < x1 then 1 else 0) +
  (if x0 < b.xmin ∨ x1 < b.xmin then 1 else 0)

/-- Bounds with the two axes exchanged. -/
def Bounds.swapAxes (b : Bounds) : Bounds := ⟨b.ymin, b.xmin, b.ymax, b.xmax⟩

/-- `Ogre2BoundingBoxCameraPrivate::AddToViewportLines`: append the two
clipped endpoints when both are finite; the NaN sentinel pair (and any
other non-accepted outcome of the model) fails the `IsFinite` test and
appends nothing. -/
def addToViewportLines (b : Bounds) (p0 p1 : ℚ × ℚ) (lines : List (ℚ × ℚ)) :
    List (ℚ × ℚ) :=
  match clipToViewPort b p0 p1 with
  | .accepted q0 q1 => lines ++ [q0, q1]
  | _ => lines

/-- The clipped point produced for a single-bit outcode `c` lies
exactly on the corresponding boundary coordinate. -/
def OnBoundary (b : Bounds) (c : ℕ) (q : ℚ × ℚ) : Prop :=
  (c = 8 → q.2 = b.ymax) ∧ (c = 4 → q.2 = b.ymin) ∧
  (c = 2 → q.1 = b.xmax) ∧ (c = 1 → q.1 = b.xmin)

/-! ### 2D box merging (`Ogre2BoundingBoxCamera::MergeBoxes2D`) -/

/-- Truncating conversion of a `double` to `uint32_t` as used by
`MergeBoxes2D` and `ConvertToScreenCoord`.  C++ truncates toward zero,
which equals the floor for the nonnegative values the pipeline
produces; a negative or `≥ 2^32` input is undefined behavior in the
source (see C10), modelled here by the clamped floor. -/
def toU32 (q : ℚ) : ℕ := (⌊q⌋).toNat

/-- Wrapping `uint32_t` subtraction (`maxX - minX` in the source),
assuming both operands are below `2^32`. -/
def u32sub (a c : ℕ) : ℕ := (a + 4294967296 - c) % 4294967296

/-- `rendering::BoundingBoxType` restricted to the three values the
camera uses. -/
inductive BoundingBoxType where
  | visibleBox2d
  | fullBox2d
  | box3d
deriving DecidableEq, Inhabited

/-- `rendering::BoundingBox` restricted to the fields the 2D pipeline
writes; the unused `Z` components and the identity `orientation` are
omitted. -/
structure BBox where
  btype : BoundingBoxType
  cx : ℚ
  cy : ℚ
  sx : ℚ
  sy : ℚ
  label : ℕ
deriving DecidableEq, Inhabited

/-- `uint32_t boxMinX = box->center.X() - box->size.X() / 2` in
`MergeBoxes2D`. -/
def cornerMinX (bx : BBox) : ℕ := toU32 (bx.cx - bx.sx / 2)

/-- `uint32_t boxMaxX = box->center.X() + box->size.X() / 2`. -/
def cornerMaxX (bx : BBox) : ℕ := toU32 (bx.cx + bx.sx / 2)

/-- `uint32_t boxMinY = box->center.Y() - box->size.Y() / 2`. -/
def cornerMinY (bx : BBox) : ℕ := toU32 (bx.cy - bx.sy / 2)

/-- `uint32_t boxMaxY = box->center.Y() + box->size.Y() / 2`. -/
def cornerMaxY (bx : BBox) : ℕ := toU32 (bx.cy + bx.sy / 2)

/-- The running `minX` accumulator of `MergeBoxes2D`, starting from
`UINT32_MAX`. -/
def mergeMinX (boxes : List BBox) : ℕ :=
  boxes.foldl (fun a bx => min a (cornerMinX bx)) 4294967295

/-- The running `maxX` accumulator of `MergeBoxes2D`, starting from 0. -/
def mergeMaxX (boxes : List BBox) : ℕ :=
  boxes.foldl (fun a bx => max a (cornerMaxX bx)) 0

/-- The running `minY` accumulator of `MergeBoxes2D`. -/
def mergeMinY (boxes : List BBox) : ℕ :=
  boxes.foldl (fun a bx => min a (cornerMinY bx)) 4294967295

/-- The running `maxY` accumulator of `MergeBoxes2D`. -/
def mergeMaxY (boxes : List BBox) : ℕ :=
  boxes.foldl (fun a bx => max a (cornerMaxY bx)) 0

/-- `Ogre2BoundingBoxCamera::MergeBoxes2D`.  A singleton group returns
its box unchanged (`return *_boxes[0]`); otherwise the `uint32_t`
extrema of all boxes' corners are accumulated and the merged box is
assembled with wrapping `uint32_t` arithmetic and truncating integer
division.  `mergedBox.type` is the camera's configured type
(`this->dataPtr->type`), passed here as `camType`; on the empty group
the source would read `_boxes[0]` out of bounds, modelled by the
`Inhabited` default head. -/
def mergeBoxes2D (camType : BoundingBoxType) (boxes : List BBox) : BBox :=
  match boxes with
  | [box] => box
  | _ =>
    let minX := mergeMinX boxes
    let maxX := mergeMaxX boxes
    let minY := mergeMinY boxes
    let maxY := mergeMaxY boxes
    let width := u32sub maxX minX
    let height := u32sub maxY minY
    { btype := camType,
      cx := (((minX + width / 2) % 4294967296 : ℕ) : ℚ),
      cy := (((minY + height / 2) % 4294967296 : ℕ) : ℚ),
      sx := ((width : ℕ) : ℚ),
      sy := ((height : ℕ) : ℚ),
      label := boxes.headI.label }

/-! ### Identifier-buffer scanning
(`MarkVisibleBoxes` / `VisibleBoundingBoxes`) -/

/-- Decoding of the 16-bit object identifier from the two id channels,
as in `MarkVisibleBoxes` and `VisibleBoundingBoxes`:
`ogreId = ogreId1 * 256 + ogreId2`. -/
def decodeId (hi lo : ℕ) : ℕ := hi * 256 + lo

/-- Modelled from the spec: the identifier encoding performed by the
material switcher (`Ogre2BoundingBoxMaterialSwitcher`, whose source is
not part of this repository): the id is split into two 8-bit channels,
`idHigh = id / 256` and `idLow = id % 256`. -/
def encodeId (id : ℕ) : ℕ × ℕ := (id / 256, id % 256)

/-- Row-major traversal of a `width × height` buffer, matching the
nested `for (y) for (x)` loops of the scanners. -/
def rowMajorPixels (w h : ℕ) : List (ℕ × ℕ) :=
  (List.range h).flatMap (fun y => (List.range w).map (fun x => (x, y)))

/-- The per-pixel body of `Ogre2BoundingBoxCamera::MarkVisibleBoxes`:
read the label channel at `(y * width + x) * 3 + 2`; for a
non-background label decode the id from the other two channels and
record the label in `visibleBoxesLabel` unless the id is already
present. -/
def markVisibleStep (bg : ℕ) (buf : ℕ → ℕ) (w : ℕ) (m : ℕ → Option ℕ)
    (p : ℕ × ℕ) : ℕ → Option ℕ :=
  let index := (p.2 * w + p.1) * 3
  let label := buf (index + 2)
  if label ≠ bg then
    let ogreId := decodeId (buf (index + 1)) (buf index)
    if (m ogreId).isSome then m
    else fun k => if k = ogreId then some label else m k
  else m

/-- `Ogre2BoundingBoxCamera::MarkVisibleBoxes`: scan the whole buffer
in row-major order into the `visibleBoxesLabel` map (modelled as a
function to `Option`, starting empty). -/
def markVisibleBoxes (bg : ℕ) (buf : ℕ → ℕ) (w h : ℕ) : ℕ → Option ℕ :=
  (rowMajorPixels w h).foldl (markVisibleStep bg buf w) (fun _ => none)

/-- The `BoxBoundary` record of `VisibleBoundingBoxes`. -/
structure PixelBoundary where
  minX : ℕ
  minY : ℕ
  maxX : ℕ
  maxY : ℕ
deriving DecidableEq, Inhabited

/-- The per-pixel body of the scanning loop of
`Ogre2BoundingBoxCamera::VisibleBoundingBoxes`.  The source keeps two
maps updated in lockstep — `boundingboxes` (whose box carries the
label, set only at creation) and `boxesBoundary` (running extrema,
created as `(width, height, 0, 0)` and updated with min/max against
the pixel) — modelled as one map from id to a (label, extents) pair. -/
def visibleScanStep (bg : ℕ) (buf : ℕ → ℕ) (w h : ℕ)
    (m : ℕ → Option (ℕ × PixelBoundary)) (p : ℕ × ℕ) :
    ℕ → Option (ℕ × PixelBoundary) :=
  let index := (p.2 * w + p.1) * 3
  let label := buf (index + 2)
  if label ≠ bg then
    let ogreId := decodeId (buf (index + 1)) (buf index)
    let entry :=
      match m ogreId with
      | none => (label, (⟨w, h, 0, 0⟩ : PixelBoundary))
      | some e => e
    let bd := entry.2
    fun k =>
      if k = ogreId then
        some (entry.1, ⟨min bd.minX p.1, min bd.minY p.2, max bd.maxX p.1, max bd.maxY p.2⟩)
      else m k
  else m

/-- The scanning loop of `VisibleBoundingBoxes`, starting from empty
maps. -/
def visibleScan (bg : ℕ) (buf : ℕ → ℕ) (w h : ℕ) :
    ℕ → Option (ℕ × PixelBoundary) :=
  (rowMajorPixels w h).foldl (visibleScanStep bg buf w h) (fun _ => none)

/-- The label channel of a pixel. -/
def labelAt (buf : ℕ → ℕ) (w : ℕ) (p : ℕ × ℕ) : ℕ :=
  buf ((p.2 * w + p.1) * 3 + 2)

/-- Whether a pixel is a non-background hit for object `id`. -/
def pixelHit (bg : ℕ) (buf : ℕ → ℕ) (w : ℕ) (id : ℕ) (p : ℕ × ℕ) : Bool :=
  decide (labelAt buf w p ≠ bg) &&
    decide (decodeId (buf ((p.2 * w + p.1) * 3 + 1)) (buf ((p.2 * w + p.1) * 3)) = id)

/-! ### Bresenham line drawing (`Ogre2BoundingBoxCamera::DrawLine`) -/

/-- Write the fixed outline color `(0, 255, 0)` at pixel `(x, y)` of a
flat row-major RGB byte buffer: `index = (y * width + x) * 3`,
`data[index] = 0`, `data[index+1] = 255`, `data[index+2] = 0`. -/
def plotPixel (w : ℕ) (data : ℤ → ℕ) (x y : ℤ) : ℤ → ℕ :=
  fun i =>
    if i = (y * (w : ℤ) + x) * 3 then 0
    else if i = (y * (w : ℤ) + x) * 3 + 1 then 255
    else if i = (y * (w : ℤ) + x) * 3 + 2 then 0
    else data i

/-- The `for (int x = x0; x < x1; x++)` loop of the shallow-slope
branch of `DrawLine`; the iteration count `x1 - x0` is passed as
fuel. -/
def drawLineLowLoop (w : ℕ) : ℕ → (ℤ → ℕ) → ℤ → ℤ → ℤ → ℤ → ℤ → ℤ → (ℤ → ℕ)
  | 0, data, _, _, _, _, _, _ => data
  | n + 1, data, x, y, D, dx, dy, yi =>
      drawLineLowLoop w n (plotPixel w data x y) (x + 1)
        (if D > 0 then y + yi else y)
        (if D > 0 then D + 2 * (dy - dx) else D + 2 * dy) dx dy yi

/-- The `for (int y = y0; y < y1; y++)` loop of the steep branch of
`DrawLine`. -/
def drawLineHighLoop (w : ℕ) : ℕ → (ℤ → ℕ) → ℤ → ℤ → ℤ → ℤ → ℤ → ℤ → (ℤ → ℕ)
  | 0, data, _, _, _, _, _, _ => data
  | n + 1, data, x, y, D, dx, dy, xi =>
      drawLineHighLoop w n (plotPixel w data x y)
        (if D > 0 then x + xi else x) (y + 1)
        (if D > 0 then D + 2 * (dx - dy) else D + 2 * dx) dx dy xi

/-- `Ogre2BoundingBoxCamera::DrawLine`: choose the dominant axis, order
the endpoints along it, then run the corresponding Bresenham loop. -/
def drawLine (w : ℕ) (data : ℤ → ℕ) (p1 p2 : ℤ × ℤ) : ℤ → ℕ :=
  if |p2.2 - p1.2| < |p2.1 - p1.1| then
    let q := if p1.1 < p2.1 then (p1, p2) else (p2, p1)
    let dx := q.2.1 - q.1.1
    let dy0 := q.2.2 - q.1.2
    let yi : ℤ := if dy0 < 0 then -1 else 1
    let dy := if dy0 < 0 then -dy0 else dy0
    drawLineLowLoop w (q.2.1 - q.1.1).toNat data q.1.1 q.1.2 (2 * dy - dx) dx dy yi
  else
    let q := if p1.2 < p2.2 then (p1, p2) else (p2, p1)
    let dx0 := q.2.1 - q.1.1
    let dy := q.2.2 - q.1.2
    let xi : ℤ := if dx0 < 0 then -1 else 1
    let dx := if dx0 < 0 then -dx0 else dx0
    drawLineHighLoop w (q.2.2 - q.1.2).toNat data q.1.1 q.1.2 (2 * dx - dy) dx dy xi

/-- Number of pixels on row `y` (among the first `n` columns) whose
green channel holds the outline value 255. -/
def countGreenRow (data : ℤ → ℕ) (w : ℕ) (y : ℤ) (n : ℕ) : ℕ :=
  ((List.range n).filter
    (fun (x : ℕ) => decide (data ((y * (w : ℤ) + (x : ℤ)) * 3 + 1) = 255))).length

/-! ### Full-projection discard and screen conversion
(`FullBoundingBoxes` / `ConvertToScreenCoord`) -/

/-- `std::clamp(v, lo, hi)`. -/
def clampQ (v lo hi : ℚ) : ℚ := if v < lo then lo else if hi < v then hi else v

/-- `Ogre2BoundingBoxCamera::ConvertToScreenCoord`: clamp the min/max
clip-space coordinates to `[-1, 1]`, convert to pixel coordinates with
`uint32_t((x + 1) / 2 * width)` and the vertically flipped
`uint32_t((1 - y) / 2 * height)`, then clamp the min corner below by 0
and the max corner above by `width - 1` / `height - 1`. -/
def convertToScreenCoord (w h : ℕ) (mn mx : ℚ × ℚ) : (ℕ × ℕ) × (ℕ × ℕ) :=
  let mnx := toU32 ((clampQ mn.1 (-1) 1 + 1) / 2 * w)
  let mny := toU32 ((1 - clampQ mn.2 (-1) 1) / 2 * h)
  let mxx := toU32 ((clampQ mx.1 (-1) 1 + 1) / 2 * w)
  let mxy := toU32 ((1 - clampQ mx.2 (-1) 1) / 2 * h)
  ((max 0 mnx, max 0 mny), (min mxx (w - 1), min mxy (h - 1)))

/-- The per-object decision of `FullBoundingBoxes` once the projected
per-axis extrema are known: skip the object when min and max both lie
outside `[-1, 1]` in absolute value on the same axis, otherwise convert
to screen coordinates and assemble the 2D box (`boxWidth = maxVertex.x
- minVertex.x`, `boxHeight = minVertex.y - maxVertex.y`, center at min
plus half, all in `double`).  The label is assigned by a later pass and
defaults to 0 here. -/
def fullBoxStep (w h : ℕ) (mn mx : ℚ × ℚ) : Option BBox :=
  if (1 < |mn.1| ∧ 1 < |mx.1|) ∨ (1 < |mn.2| ∧ 1 < |mx.2|) then none
  else
    let c := convertToScreenCoord w h mn mx
    let boxWidth : ℚ := (c.2.1 : ℚ) - (c.1.1 : ℚ)
    let boxHeight : ℚ := (c.1.2 : ℚ) - (c.2.2 : ℚ)
    some
      { btype := .fullBox2d,
        cx := (c.1.1 : ℚ) + boxWidth / 2,
        cy := (c.2.2 : ℚ) + boxHeight / 2,
        sx := boxWidth,
        sy := boxHeight,
        label := 0 }

/-- An object whose projected extent interval is disjoint from the
`[-1, 1]` screen range on some axis. -/
def FullyOffscreen (mn mx : ℚ × ℚ) : Prop :=
  mx.1 < -1 ∨ 1 < mn.1 ∨ mx.2 < -1 ∨ 1 < mn.2

/-! ### Outcode characterization lemmas -/

lemma hcode_mem (b : Bounds) (x : ℚ) : hcode b x = 0 ∨ hcode b x = 1 ∨ hcode b x = 2 := by
  unfold hcode; split
  · exact Or.inr (Or.inl rfl)
  · split
    · exact Or.inr (Or.inr rfl)
    · exact Or.inl rfl

lemma vcode_mem (b : Bounds) (y : ℚ) : vcode b y = 0 ∨ vcode b y = 4 ∨ vcode b y = 8 := by
  unfold vcode; split
  · exact Or.inr (Or.inl rfl)
  · split
    · exact Or.inr (Or.inr rfl)
    · exact Or.inl rfl

lemma loc_eq_add (b : Bounds) (x y : ℚ) :
    locationRelativeToViewPort b x y = hcode b x + vcode b y := by
  unfold locationRelativeToViewPort
  rcases hcode_mem b x with h | h | h <;>
    rcases vcode_mem b y with v | v | v <;> rw [h, v] <;> rfl

lemma hcode_eq_one_iff (b : Bounds) (x : ℚ) : hcode b x = 1 ↔ x < b.xmin := by
  unfold hcode; split
  · simp_all
  · split <;> simp_all

lemma hcode_eq_two_iff (b : Bounds) (x : ℚ) (hv : b.Valid) :
    hcode b x = 2 ↔ b.xmax < x := by
  unfold hcode; split
  · constructor
    · omega
    · intro h; exfalso; have := hv.1; linarith
  · split <;> simp_all

lemma hcode_eq_zero_iff (b : Bounds) (x : ℚ) :
    hcode b x = 0 ↔ b.xmin ≤ x ∧ x ≤ b.xmax := by
  unfold hcode; split
  · constructor
    · omega
    · intro h; exfalso; linarith [h.1]
  · split
    · constructor
      · omega
      · intro h; exfalso; linarith [h.2]
    · constructor
      · intro _; constructor <;> linarith
      · intro _; rfl

lemma vcode_eq_four_iff (b : Bounds) (y : ℚ) : vcode b y = 4 ↔ y < b.ymin := by
  unfold vcode; split
  · simp_all
  · split <;> simp_all

lemma vcode_eq_eight_iff (b : Bounds) (y : ℚ) (hv : b.Valid) :
    vcode b y = 8 ↔ b.ymax < y := by
  unfold vcode; split
  · constructor
    · omega
    · intro h; exfalso; have := hv.2; linarith
  · split <;> simp_all

lemma vcode_eq_zero_iff (b : Bounds) (y : ℚ) :
    vcode b y = 0 ↔ b.ymin ≤ y ∧ y ≤ b.ymax := by
  unfold vcode; split
  · constructor
    · omega
    · intro h; exfalso; linarith [h.1]
  · split
    · constructor
      · omega
      · intro h; exfalso; linarith [h.2]
    · constructor
      · intro _; constructor <;> linarith
      · intro _; rfl

/-- Coordinate bound from a missing `kTop` bit. -/
lemma y_le_ymax_of_vcode_ne_eight (b : Bounds) (y : ℚ) (hv : b.Valid)
    (h : vcode b y ≠ 8) : y ≤ b.ymax := by
  by_contra hc
  exact h ((vcode_eq_eight_iff b y hv).2 (lt_of_not_le hc))

/-- Coordinate bound from a missing `kBottom` bit. -/
lemma ymin_le_of_vcode_ne_four (b : Bounds) (y : ℚ)
    (h : vcode b y ≠ 4) : b.ymin ≤ y := by
  by_contra hc
  exact h ((vcode_eq_four_iff b y).2 (lt_of_not_le hc))

/-- Coordinate bound from a missing `kRight` bit. -/
lemma x_le_xmax_of_hcode_ne_two (b : Bounds) (x : ℚ) (hv : b.Valid)
    (h : hcode b x ≠ 2) : x ≤ b.xmax := by
  by_contra hc
  exact h ((hcode_eq_two_iff b x hv).2 (lt_of_not_le hc))

/-- Coordinate bound from a missing `kLeft` bit. -/
lemma xmin_le_of_hcode_ne_one (b : Bounds) (x : ℚ)
    (h : hcode b x ≠ 1) : b.xmin ≤ x := by
  by_contra hc
  exact h ((hcode_eq_one_iff b x).2 (lt_of_not_le hc))

/-! Bit-level facts about outcodes, proved by enumerating the nine
possible `(hcode, vcode)` values. -/

lemma code_land_eight (h v : ℕ) (hh : h = 0 ∨ h = 1 ∨ h = 2)
    (hv : v = 0 ∨ v = 4 ∨ v = 8) : (h + v) &&& 8 ≠ 0 ↔ v = 8 := by
  rcases hh with rfl | rfl | rfl <;> rcases hv with rfl | rfl | rfl <;> decide

lemma code_land_four (h v : ℕ) (hh : h = 0 ∨ h = 1 ∨ h = 2)
    (hv : v = 0 ∨ v = 4 ∨ v = 8) : (h + v) &&& 4 ≠ 0 ↔ v = 4 := by
  rcases hh with rfl | rfl | rfl <;> rcases hv with rfl | rfl | rfl <;> decide

lemma code_land_two (h v : ℕ) (hh : h = 0 ∨ h = 1 ∨ h = 2)
    (hv : v = 0 ∨ v = 4 ∨ v = 8) : (h + v) &&& 2 ≠ 0 ↔ h = 2 := by
  rcases hh with rfl | rfl | rfl <;> rcases hv with rfl | rfl | rfl <;> decide

lemma code_land_one (h v : ℕ) (hh : h = 0 ∨ h = 1 ∨ h = 2)
    (hv : v = 0 ∨ v = 4 ∨ v = 8) : (h + v) &&& 1 ≠ 0 ↔ h = 1 := by
  rcases hh with rfl | rfl | rfl <;> rcases hv with rfl | rfl | rfl <;> decide

lemma code_lor_zero (h v h' v' : ℕ) (hh : h = 0 ∨ h = 1 ∨ h = 2)
    (hv : v = 0 ∨ v = 4 ∨ v = 8) (hh' : h' = 0 ∨ h' = 1 ∨ h' = 2)
    (hv' : v' = 0 ∨ v' = 4 ∨ v' = 8) :
    (h + v) ||| (h' + v') = 0 ↔ h = 0 ∧ v = 0 ∧ h' = 0 ∧ v' = 0 := by
  rcases hh with rfl | rfl | rfl <;> rcases hv with rfl | rfl | rfl <;>
    rcases hh' with rfl | rfl | rfl <;> rcases hv' with rfl | rfl | rfl <;> decide

lemma code_land_zero (h v h' v' : ℕ) (hh : h = 0 ∨ h = 1 ∨ h = 2)
    (hv : v = 0 ∨ v = 4 ∨ v = 8) (hh' : h' = 0 ∨ h' = 1 ∨ h' = 2)
    (hv' : v' = 0 ∨ v' = 4 ∨ v' = 8) :
    (h + v) &&& (h' + v') = 0 ↔
      (h = 0 ∨ h' = 0 ∨ h ≠ h') ∧ (v = 0 ∨ v' = 0 ∨ v ≠ v') := by
  rcases hh with rfl | rfl | rfl <;> rcases hv with rfl | rfl | rfl <;>
    rcases hh' with rfl | rfl | rfl <;> rcases hv' with rfl | rfl | rfl <;> decide

lemma loc_eq_zero_iff (b : Bounds) (x y : ℚ) :
    locationRelativeToViewPort b x y = 0 ↔
      b.xmin ≤ x ∧ x ≤ b.xmax ∧ b.ymin ≤ y ∧ y ≤ b.ymax := by
  rw [loc_eq_add]
  have hh := hcode_mem b x
  have hv := vcode_mem b y
  constructor
  · intro h
    have h0 : hcode b x = 0 := by omega
    have v0 : vcode b y = 0 := by omega
    obtain ⟨a1, a2⟩ := (hcode_eq_zero_iff b x).1 h0
    obtain ⟨a3, a4⟩ := (vcode_eq_zero_iff b y).1 v0
    exact ⟨a1, a2, a3, a4⟩
  · intro ⟨a1, a2, a3, a4⟩
    rw [(hcode_eq_zero_iff b x).2 ⟨a1, a2⟩, (vcode_eq_zero_iff b y).2 ⟨a3, a4⟩]

lemma loc_inside (b : Bounds) (p : ℚ × ℚ) (h : Inside b p) :
    locationRelativeToViewPort b p.1 p.2 = 0 :=
  (loc_eq_zero_iff b p.1 p.2).2 ⟨h.1, h.2.1, h.2.2.1, h.2.2.2⟩

lemma clipMeasure_le_four (b : Bounds) (x0 y0 x1 y1 : ℚ) :
    clipMeasure b x0 y0 x1 y1 ≤ 4 := by
  unfold clipMeasure
  split <;> split <;> split <;> split <;> omega

lemma clipMeasure_swap_slots (b : Bounds) (x0 y0 x1 y1 : ℚ) :
    clipMeasure b x0 y0 x1 y1 = clipMeasure b x1 y1 x0 y0 := by
  unfold clipMeasure
  simp only [or_comm]

lemma Bounds.swapAxes_valid {b : Bounds} (hv : b.Valid) : b.swapAxes.Valid :=
  ⟨hv.2, hv.1⟩

lemma clipMeasure_swap_axes (b : Bounds) (x0 y0 x1 y1 : ℚ) :
    clipMeasure b.swapAxes y0 x0 y1 x1 = clipMeasure b x0 y0 x1 y1 := by
  unfold clipMeasure Bounds.swapAxes
  dsimp only
  ring

/-- The intersection parameter `(m - a) / (c - a)` lies in `[0, 1]`
when the boundary value `m` is between the endpoint values `a`, `c`,
and the denominator is nonzero. -/
lemma ratio_mem_unit (a c m : ℚ)
    (h : (a ≤ m ∧ m ≤ c ∧ a < c) ∨ (c ≤ m ∧ m ≤ a ∧ c < a)) :
    c - a ≠ 0 ∧ 0 ≤ (m - a) / (c - a) ∧ (m - a) / (c - a) ≤ 1 := by
  rcases h with ⟨h1, h2, h3⟩ | ⟨h1, h2, h3⟩
  · have hd : 0 < c - a := by linarith
    refine ⟨ne_of_gt hd, div_nonneg (by linarith) (le_of_lt hd), ?_⟩
    rw [div_le_one hd]
    linarith
  · have hd : c - a < 0 := by linarith
    have hrw : (m - a) / (c - a) = (a - m) / (a - c) := by
      rw [show a - m = -(m - a) by ring, show a - c = -(c - a) by ring,
        neg_div_neg_eq]
    have hd' : 0 < a - c := by linarith
    refine ⟨ne_of_lt hd, ?_, ?_⟩
    · rw [hrw]
      exact div_nonneg (by linarith) (le_of_lt hd')
    · rw [hrw, div_le_one hd']
      linarith

/-- The clipped coordinate `p + (q - p) * t` for `t ∈ [0, 1]` lies
between the endpoint coordinates. -/
lemma convex_between (p q t : ℚ) (h0 : 0 ≤ t) (h1 : t ≤ 1) :
    min p q ≤ p + (q - p) * t ∧ p + (q - p) * t ≤ max p q := by
  rcases le_total p q with hab | hab
  · rw [min_eq_left hab, max_eq_right hab]
    constructor <;> nlinarith
  · rw [min_eq_right hab, max_eq_left hab]
    constructor <;> nlinarith

/-- Indicator monotonicity helper. -/
lemma ite_le_ite_of_imp {p q : Prop} [Decidable p] [Decidable q] (h : p → q) :
    (if p then (1 : ℕ) else 0) ≤ (if q then 1 else 0) := by
  split_ifs with h1 h2
  · exact le_refl _
  · exact absurd (h h1) h2
  · exact Nat.zero_le _
  · exact le_refl _

/-- Core measure decrease: clipping the second endpoint against the top
boundary. -/
lemma clipMeasure_dec_top {b : Bounds} {x0 y0 x1 y1 x' : ℚ} (hv : b.Valid)
    (hout : b.ymax < y1) (hin : y0 ≤ b.ymax)
    (hlo : min x0 x1 ≤ x') (hhi : x' ≤ max x0 x1) :
    clipMeasure b x0 y0 x' b.ymax < clipMeasure b x0 y0 x1 y1 := by
  unfold clipMeasure
  have hT : ¬(b.ymax < y0 ∨ b.ymax < b.ymax) := by
    rintro (h | h)
    · exact absurd h (not_lt.2 hin)
    · exact lt_irrefl _ h
  have hTold : b.ymax < y0 ∨ b.ymax < y1 := Or.inr hout
  have hB : (y0 < b.ymin ∨ b.ymax < b.ymin) → (y0 < b.ymin ∨ y1 < b.ymin) := by
    rintro (h | h)
    · exact Or.inl h
    · exact absurd h (not_lt.2 hv.2)
  have hR : (b.xmax < x0 ∨ b.xmax < x') → (b.xmax < x0 ∨ b.xmax < x1) := by
    rintro (h | h)
    · exact Or.inl h
    · have : b.xmax < max x0 x1 := lt_of_lt_of_le h hhi
      rw [max_def] at this
      split at this
      · exact Or.inr this
      · exact Or.inl this
  have hL : (x0 < b.xmin ∨ x' < b.xmin) → (x0 < b.xmin ∨ x1 < b.xmin) := by
    rintro (h | h)
    · exact Or.inl h
    · have : min x0 x1 < b.xmin := lt_of_le_of_lt hlo h
      rw [min_def] at this
      split at this
      · exact Or.inl this
      · exact Or.inr this
  rw [if_neg hT, if_pos hTold]
  have i1 := ite_le_ite_of_imp hB
  have i2 := ite_le_ite_of_imp hR
  have i3 := ite_le_ite_of_imp hL
  omega

/-- Core measure decrease: clipping the second endpoint against the
bottom boundary. -/
lemma clipMeasure_dec_bottom {b : Bounds} {x0 y0 x1 y1 x' : ℚ} (hv : b.Valid)
    (hout : y1 < b.ymin) (hin : b.ymin ≤ y0)
    (hlo : min x0 x1 ≤ x') (hhi : x' ≤ max x0 x1) :
    clipMeasure b x0 y0 x' b.ymin < clipMeasure b x0 y0 x1 y1 := by
  unfold clipMeasure
  have hBnew : ¬(y0 < b.ymin ∨ b.ymin < b.ymin) := by
    rintro (h | h)
    · exact absurd h (not_lt.2 hin)
    · exact lt_irrefl _ h
  have hBold : y0 < b.ymin ∨ y1 < b.ymin := Or.inr hout
  have hT : (b.ymax < y0 ∨ b.ymax < b.ymin) → (b.ymax < y0 ∨ b.ymax < y1) := by
    rintro (h | h)
    · exact Or.inl h
    · exact absurd h (not_lt.2 hv.2)
  have hR : (b.xmax < x0 ∨ b.xmax < x') → (b.xmax < x0 ∨ b.xmax < x1) := by
    rintro (h | h)
    · exact Or.inl h
    · have : b.xmax < max x0 x1 := lt_of_lt_of_le h hhi
      rw [max_def] at this
      split at this
      · exact Or.inr this
      · exact Or.inl this
  have hL : (x0 < b.xmin ∨ x' < b.xmin) → (x0 < b.xmin ∨ x1 < b.xmin) := by
    rintro (h | h)
    · exact Or.inl h
    · have : min x0 x1 < b.xmin := lt_of_le_of_lt hlo h
      rw [min_def] at this
      split at this
      · exact Or.inl this
      · exact Or.inr this
  rw [if_neg hBnew, if_pos hBold]
  have i1 := ite_le_ite_of_imp hT
  have i2 := ite_le_ite_of_imp hR
  have i3 := ite_le_ite_of_imp hL
  omega

/-! ### Per-branch facts for the clipping step

For each boundary branch of `ClipToViewPort` and each endpoint that may
be moved, the denominator of the intersection formula is nonzero and
the measure strictly decreases. -/

lemma clip_top_slot1 (b : Bounds) (x0 y0 x1 y1 : ℚ) (hv : b.Valid)
    (hout : b.ymax < y1) (hin : y0 ≤ b.ymax) :
    y1 - y0 ≠ 0 ∧
    clipMeasure b x0 y0 (x0 + (x1 - x0) * (b.ymax - y0) / (y1 - y0)) b.ymax
      < clipMeasure b x0 y0 x1 y1 := by
  obtain ⟨hd, ht0, ht1⟩ := ratio_mem_unit y0 y1 b.ymax
    (Or.inl ⟨hin, le_of_lt hout, lt_of_le_of_lt hin hout⟩)
  obtain ⟨hlo, hhi⟩ := convex_between x0 x1 ((b.ymax - y0) / (y1 - y0)) ht0 ht1
  rw [mul_div_assoc]
  exact ⟨hd, clipMeasure_dec_top hv hout hin hlo hhi⟩

lemma clip_top_slot0 (b : Bounds) (x0 y0 x1 y1 : ℚ) (hv : b.Valid)
    (hout : b.ymax < y0) (hin : y1 ≤ b.ymax) :
    y1 - y0 ≠ 0 ∧
    clipMeasure b (x0 + (x1 - x0) * (b.ymax - y0) / (y1 - y0)) b.ymax x1 y1
      < clipMeasure b x0 y0 x1 y1 := by
  obtain ⟨hd, ht0, ht1⟩ := ratio_mem_unit y0 y1 b.ymax
    (Or.inr ⟨hin, le_of_lt hout, lt_of_le_of_lt hin hout⟩)
  obtain ⟨hlo, hhi⟩ := convex_between x0 x1 ((b.ymax - y0) / (y1 - y0)) ht0 ht1
  rw [mul_div_assoc, clipMeasure_swap_slots, clipMeasure_swap_slots b x0 y0 x1 y1]
  refine ⟨hd, clipMeasure_dec_top hv hout hin ?_ ?_⟩
  · rw [min_comm]
    exact hlo
  · rw [max_comm]
    exact hhi

lemma clip_bottom_slot1 (b : Bounds) (x0 y0 x1 y1 : ℚ) (hv : b.Valid)
    (hout : y1 < b.ymin) (hin : b.ymin ≤ y0) :
    y1 - y0 ≠ 0 ∧
    clipMeasure b x0 y0 (x0 + (x1 - x0) * (b.ymin - y0) / (y1 - y0)) b.ymin
      < clipMeasure b x0 y0 x1 y1 := by
  obtain ⟨hd, ht0, ht1⟩ := ratio_mem_unit y0 y1 b.ymin
    (Or.inr ⟨le_of_lt hout, hin, lt_of_lt_of_le hout hin⟩)
  obtain ⟨hlo, hhi⟩ := convex_between x0 x1 ((b.ymin - y0) / (y1 - y0)) ht0 ht1
  rw [mul_div_assoc]
  exact ⟨hd, clipMeasure_dec_bottom hv hout hin hlo hhi⟩

lemma clip_bottom_slot0 (b : Bounds) (x0 y0 x1 y1 : ℚ) (hv : b.Valid)
    (hout : y0 < b.ymin) (hin : b.ymin ≤ y1) :
    y1 - y0 ≠ 0 ∧
    clipMeasure b (x0 + (x1 - x0) * (b.ymin - y0) / (y1 - y0)) b.ymin x1 y1
      < clipMeasure b x0 y0 x1 y1 := by
  obtain ⟨hd, ht0, ht1⟩ := ratio_mem_unit y0 y1 b.ymin
    (Or.inl ⟨le_of_lt hout, hin, lt_of_lt_of_le hout hin⟩)
  obtain ⟨hlo, hhi⟩ := convex_between x0 x1 ((b.ymin - y0) / (y1 - y0)) ht0 ht1
  rw [mul_div_assoc, clipMeasure_swap_slots, clipMeasure_swap_slots b x0 y0 x1 y1]
  refine ⟨hd, clipMeasure_dec_bottom hv hout hin ?_ ?_⟩
  · rw [min_comm]
    exact hlo
  · rw [max_comm]
    exact hhi

lemma clip_right_slot1 (b : Bounds) (x0 y0 x1 y1 : ℚ) (hv : b.Valid)
    (hout : b.xmax < x1) (hin : x0 ≤ b.xmax) :
    x1 - x0 ≠ 0 ∧
    clipMeasure b x0 y0 b.xmax (y0 + (y1 - y0) * (b.xmax - x0) / (x1 - x0))
      < clipMeasure b x0 y0 x1 y1 := by
  have H := clip_top_slot1 b.swapAxes y0 x0 y1 x1 (Bounds.swapAxes_valid hv) hout hin
  rw [clipMeasure_swap_axes, clipMeasure_swap_axes] at H
  exact H

lemma clip_right_slot0 (b : Bounds) (x0 y0 x1 y1 : ℚ) (hv : b.Valid)
    (hout : b.xmax < x0) (hin : x1 ≤ b.xmax) :
    x1 - x0 ≠ 0 ∧
    clipMeasure b b.xmax (y0 + (y1 - y0) * (b.xmax - x0) / (x1 - x0)) x1 y1
      < clipMeasure b x0 y0 x1 y1 := by
  have H := clip_top_slot0 b.swapAxes y0 x0 y1 x1 (Bounds.swapAxes_valid hv) hout hin
  rw [clipMeasure_swap_axes, clipMeasure_swap_axes] at H
  exact H

lemma clip_left_slot1 (b : Bounds) (x0 y0 x1 y1 : ℚ) (hv : b.Valid)
    (hout : x1 < b.xmin) (hin : b.xmin ≤ x0) :
    x1 - x0 ≠ 0 ∧
    clipMeasure b x0 y0 b.xmin (y0 + (y1 - y0) * (b.xmin - x0) / (x1 - x0))
      < clipMeasure b x0 y0 x1 y1 := by
  have H := clip_bottom_slot1 b.swapAxes y0 x0 y1 x1 (Bounds.swapAxes_valid hv) hout hin
  rw [clipMeasure_swap_axes, clipMeasure_swap_axes] at H
  exact H

lemma clip_left_slot0 (b : Bounds) (x0 y0 x1 y1 : ℚ) (hv : b.Valid)
    (hout : x0 < b.xmin) (hin : b.xmin ≤ x1) :
    x1 - x0 ≠ 0 ∧
    clipMeasure b b.xmin (y0 + (y1 - y0) * (b.xmin - x0) / (x1 - x0)) x1 y1
      < clipMeasure b x0 y0 x1 y1 := by
  have H := clip_bottom_slot0 b.swapAxes y0 x0 y1 x1 (Bounds.swapAxes_valid hv) hout hin
  rw [clipMeasure_swap_axes, clipMeasure_swap_axes] at H
  exact H

/-- One iteration of the clipping loop never divides by zero, preserves
well-formedness, and strictly decreases the measure. -/
lemma clipIter_good (b : Bounds) (s : ClipState) (hv : b.Valid) (hwf : s.WF b) :
    clipIter b s ≠ .divzero ∧
    ∀ s', clipIter b s = .next s' →
      s'.WF b ∧
      clipMeasure b s'.x0 s'.y0 s'.x1 s'.y1 < clipMeasure b s.x0 s.y0 s.x1 s.y1 := by
  obtain ⟨hwf0, hwf1⟩ := hwf
  have e0 : s.loc0 = hcode b s.x0 + vcode b s.y0 := by rw [hwf0, loc_eq_add]
  have e1 : s.loc1 = hcode b s.x1 + vcode b s.y1 := by rw [hwf1, loc_eq_add]
  have hm0 := hcode_mem b s.x0
  have hm1 := hcode_mem b s.x1
  have vm0 := vcode_mem b s.y0
  have vm1 := vcode_mem b s.y1
  unfold clipIter
  by_cases hOr : s.loc0 ||| s.loc1 = 0
  · rw [if_pos hOr]
    exact ⟨(fun h => nomatch h), (fun s' h => nomatch h)⟩
  rw [if_neg hOr]
  by_cases hAnd : s.loc0 &&& s.loc1 ≠ 0
  · rw [if_pos hAnd]
    exact ⟨(fun h => nomatch h), (fun s' h => nomatch h)⟩
  rw [if_neg hAnd]
  push_neg at hAnd
  have hz := (code_land_zero _ _ _ _ hm0 vm0 hm1 vm1).1 (by rw [← e0, ← e1]; exact hAnd)
  simp only [gt_iff_lt]
  by_cases hcmp : s.loc0 < s.loc1
  · simp only [if_pos hcmp]
    have hne : s.loc1 ≠ s.loc0 := hcmp.ne'
    by_cases hT : s.loc1 &&& 8 ≠ 0
    · -- top branch, second endpoint is outside
      rw [if_pos hT]
      have hv1 : vcode b s.y1 = 8 := (code_land_eight _ _ hm1 vm1).1 (by rw [← e1]; exact hT)
      have hout : b.ymax < s.y1 := (vcode_eq_eight_iff b s.y1 hv).1 hv1
      have hv0ne : vcode b s.y0 ≠ 8 := by
        intro hc
        rcases hz.2 with h | h | h <;> omega
      have hin : s.y0 ≤ b.ymax := y_le_ymax_of_vcode_ne_eight b s.y0 hv hv0ne
      obtain ⟨hd, hdec⟩ := clip_top_slot1 b s.x0 s.y0 s.x1 s.y1 hv hout hin
      rw [if_neg hd]
      refine ⟨(fun h => nomatch h), (fun s' hs' => ?_)⟩
      injection hs' with h
      subst h
      unfold updateOuter
      rw [if_neg hne]
      exact ⟨⟨hwf0, rfl⟩, hdec⟩
    rw [if_neg hT]
    push_neg at hT
    by_cases hB : s.loc1 &&& 4 ≠ 0
    · -- bottom branch, second endpoint is outside
      rw [if_pos hB]
      have hv1 : vcode b s.y1 = 4 := (code_land_four _ _ hm1 vm1).1 (by rw [← e1]; exact hB)
      have hout : s.y1 < b.ymin := (vcode_eq_four_iff b s.y1).1 hv1
      have hv0ne : vcode b s.y0 ≠ 4 := by
        intro hc
        rcases hz.2 with h | h | h <;> omega
      have hin : b.ymin ≤ s.y0 := ymin_le_of_vcode_ne_four b s.y0 hv0ne
      obtain ⟨hd, hdec⟩ := clip_bottom_slot1 b s.x0 s.y0 s.x1 s.y1 hv hout hin
      rw [if_neg hd]
      refine ⟨(fun h => nomatch h), (fun s' hs' => ?_)⟩
      injection hs' with h
      subst h
      unfold updateOuter
      rw [if_neg hne]
      exact ⟨⟨hwf0, rfl⟩, hdec⟩
    rw [if_neg hB]
    push_neg at hB
    by_cases hR : s.loc1 &&& 2 ≠ 0
    · -- right branch, second endpoint is outside
      rw [if_pos hR]
      have hh1 : hcode b s.x1 = 2 := (code_land_two _ _ hm1 vm1).1 (by rw [← e1]; exact hR)
      have hout : b.xmax < s.x1 := (hcode_eq_two_iff b s.x1 hv).1 hh1
      have hh0ne : hcode b s.x0 ≠ 2 := by
        intro hc
        rcases hz.1 with h | h | h <;> omega
      have hin : s.x0 ≤ b.xmax := x_le_xmax_of_hcode_ne_two b s.x0 hv hh0ne
      obtain ⟨hd, hdec⟩ := clip_right_slot1 b s.x0 s.y0 s.x1 s.y1 hv hout hin
      rw [if_neg hd]
      refine ⟨(fun h => nomatch h), (fun s' hs' => ?_)⟩
      injection hs' with h
      subst h
      unfold updateOuter
      rw [if_neg hne]
      exact ⟨⟨hwf0, rfl⟩, hdec⟩
    rw [if_neg hR]
    push_neg at hR
    by_cases hL : s.loc1 &&& 1 ≠ 0
    · -- left branch, second endpoint is outside
      rw [if_pos hL]
      have hh1 : hcode b s.x1 = 1 := (code_land_one _ _ hm1 vm1).1 (by rw [← e1]; exact hL)
      have hout : s.x1 < b.xmin := (hcode_eq_one_iff b s.x1).1 hh1
      have hh0ne : hcode b s.x0 ≠ 1 := by
        intro hc
        rcases hz.1 with h | h | h <;> omega
      have hin : b.xmin ≤ s.x0 := xmin_le_of_hcode_ne_one b s.x0 hh0ne
      obtain ⟨hd, hdec⟩ := clip_left_slot1 b s.x0 s.y0 s.x1 s.y1 hv hout hin
      rw [if_neg hd]
      refine ⟨(fun h => nomatch h), (fun s' hs' => ?_)⟩
      injection hs' with h
      subst h
      unfold updateOuter
      rw [if_neg hne]
      exact ⟨⟨hwf0, rfl⟩, hdec⟩
    -- dead branch: the chosen outside point has a nonzero outcode
    exfalso
    push_neg at hL
    rw [e1] at hT hB hR hL
    have hv18 : vcode b s.y1 ≠ 8 := fun hc => (code_land_eight _ _ hm1 vm1).2 hc hT
    have hv14 : vcode b s.y1 ≠ 4 := fun hc => (code_land_four _ _ hm1 vm1).2 hc hB
    have hh12 : hcode b s.x1 ≠ 2 := fun hc => (code_land_two _ _ hm1 vm1).2 hc hR
    have hh11 : hcode b s.x1 ≠ 1 := fun hc => (code_land_one _ _ hm1 vm1).2 hc hL
    omega
  · simp only [if_neg hcmp]
    have hle : s.loc1 ≤ s.loc0 := le_of_not_lt hcmp
    by_cases hT : s.loc0 &&& 8 ≠ 0
    · -- top branch, first endpoint is outside
      rw [if_pos hT]
      have hv0 : vcode b s.y0 = 8 := (code_land_eight _ _ hm0 vm0).1 (by rw [← e0]; exact hT)
      have hout : b.ymax < s.y0 := (vcode_eq_eight_iff b s.y0 hv).1 hv0
      have hv1ne : vcode b s.y1 ≠ 8 := by
        intro hc
        rcases hz.2 with h | h | h <;> omega
      have hin : s.y1 ≤ b.ymax := y_le_ymax_of_vcode_ne_eight b s.y1 hv hv1ne
      obtain ⟨hd, hdec⟩ := clip_top_slot0 b s.x0 s.y0 s.x1 s.y1 hv hout hin
      rw [if_neg hd]
      refine ⟨(fun h => nomatch h), (fun s' hs' => ?_)⟩
      injection hs' with h
      subst h
      unfold updateOuter
      rw [if_pos rfl]
      exact ⟨⟨rfl, hwf1⟩, hdec⟩
    rw [if_neg hT]
    push_neg at hT
    by_cases hB : s.loc0 &&& 4 ≠ 0
    · -- bottom branch, first endpoint is outside
      rw [if_pos hB]
      have hv0 : vcode b s.y0 = 4 := (code_land_four _ _ hm0 vm0).1 (by rw [← e0]; exact hB)
      have hout : s.y0 < b.ymin := (vcode_eq_four_iff b s.y0).1 hv0
      have hv1ne : vcode b s.y1 ≠ 4 := by
        intro hc
        rcases hz.2 with h | h | h <;> omega
      have hin : b.ymin ≤ s.y1 := ymin_le_of_vcode_ne_four b s.y1 hv1ne
      obtain ⟨hd, hdec⟩ := clip_bottom_slot0 b s.x0 s.y0 s.x1 s.y1 hv hout hin
      rw [if_neg hd]
      refine ⟨(fun h => nomatch h), (fun s' hs' => ?_)⟩
      injection hs' with h
      subst h
      unfold updateOuter
      rw [if_pos rfl]
      exact ⟨⟨rfl, hwf1⟩, hdec⟩
    rw [if_neg hB]
    push_neg at hB
    by_cases hR : s.loc0 &&& 2 ≠ 0
    · -- right branch, first endpoint is outside
      rw [if_pos hR]
      have hh0 : hcode b s.x0 = 2 := (code_land_two _ _ hm0 vm0).1 (by rw [← e0]; exact hR)
      have hout : b.xmax < s.x0 := (hcode_eq_two_iff b s.x0 hv).1 hh0
      have hh1ne : hcode b s.x1 ≠ 2 := by
        intro hc
        rcases hz.1 with h | h | h <;> omega
      have hin : s.x1 ≤ b.xmax := x_le_xmax_of_hcode_ne_two b s.x1 hv hh1ne
      obtain ⟨hd, hdec⟩ := clip_right_slot0 b s.x0 s.y0 s.x1 s.y1 hv hout hin
      rw [if_neg hd]
      refine ⟨(fun h => nomatch h), (fun s' hs' => ?_)⟩
      injection hs' with h
      subst h
      unfold updateOuter
      rw [if_pos rfl]
      exact ⟨⟨rfl, hwf1⟩, hdec⟩
    rw [if_neg hR]
    push_neg at hR
    by_cases hL : s.loc0 &&& 1 ≠ 0
    · -- left branch, first endpoint is outside
      rw [if_pos hL]
      have hh0 : hcode b s.x0 = 1 := (code_land_one _ _ hm0 vm0).1 (by rw [← e0]; exact hL)
      have hout : s.x0 < b.xmin := (hcode_eq_one_iff b s.x0).1 hh0
      have hh1ne : hcode b s.x1 ≠ 1 := by
        intro hc
        rcases hz.1 with h | h | h <;> omega
      have hin : b.xmin ≤ s.x1 := xmin_le_of_hcode_ne_one b s.x1 hh1ne
      obtain ⟨hd, hdec⟩ := clip_left_slot0 b s.x0 s.y0 s.x1 s.y1 hv hout hin
      rw [if_neg hd]
      refine ⟨(fun h => nomatch h), (fun s' hs' => ?_)⟩
      injection hs' with h
      subst h
      unfold updateOuter
      rw [if_pos rfl]
      exact ⟨⟨rfl, hwf1⟩, hdec⟩
    -- dead branch: the chosen outside point has a nonzero outcode
    exfalso
    push_neg at hL
    rw [e0] at hT hB hR hL
    have hv08 : vcode b s.y0 ≠ 8 := fun hc => (code_land_eight _ _ hm0 vm0).2 hc hT
    have hv04 : vcode b s.y0 ≠ 4 := fun hc => (code_land_four _ _ hm0 vm0).2 hc hB
    have hh02 : hcode b s.x0 ≠ 2 := fun hc => (code_land_two _ _ hm0 vm0).2 hc hR
    have hh01 : hcode b s.x0 ≠ 1 := fun hc => (code_land_one _ _ hm0 vm0).2 hc hL
    have h00 : s.loc0 = 0 := by omega
    have h10 : s.loc1 = 0 := by omega
    rw [h00, h10] at hOr
    exact hOr rfl

/-! ### Loop-level lemmas -/

lemma clipIter_accept_inv (b : Bounds) (s : ClipState) (p q : ℚ × ℚ)
    (h : clipIter b s = .accept p q) :
    s.loc0 ||| s.loc1 = 0 ∧ p = (s.x0, s.y0) ∧ q = (s.x1, s.y1) := by
  unfold clipIter at h
  by_cases hOr : s.loc0 ||| s.loc1 = 0
  · rw [if_pos hOr] at h
    injection h with h1 h2
    exact ⟨hOr, h1.symm, h2.symm⟩
  · rw [if_neg hOr] at h
    exfalso
    simp only [gt_iff_lt] at h
    repeat' split at h
    all_goals simp_all

lemma inside_of_lor_zero (b : Bounds) (s : ClipState) (hwf : s.WF b)
    (h : s.loc0 ||| s.loc1 = 0) :
    Inside b (s.x0, s.y0) ∧ Inside b (s.x1, s.y1) := by
  obtain ⟨hwf0, hwf1⟩ := hwf
  have e0 : s.loc0 = hcode b s.x0 + vcode b s.y0 := by rw [hwf0, loc_eq_add]
  have e1 : s.loc1 = hcode b s.x1 + vcode b s.y1 := by rw [hwf1, loc_eq_add]
  have hz := (code_lor_zero _ _ _ _ (hcode_mem b s.x0) (vcode_mem b s.y0)
    (hcode_mem b s.x1) (vcode_mem b s.y1)).1 (by rw [← e0, ← e1]; exact h)
  obtain ⟨h0, v0, h1, v1⟩ := hz
  obtain ⟨a1, a2⟩ := (hcode_eq_zero_iff b s.x0).1 h0
  obtain ⟨a3, a4⟩ := (vcode_eq_zero_iff b s.y0).1 v0
  obtain ⟨a5, a6⟩ := (hcode_eq_zero_iff b s.x1).1 h1
  obtain ⟨a7, a8⟩ := (vcode_eq_zero_iff b s.y1).1 v1
  exact ⟨⟨a1, a2, a3, a4⟩, ⟨a5, a6, a7, a8⟩⟩

lemma clipLoop_no_divzero (b : Bounds) (hv : b.Valid) :
    ∀ (fuel : ℕ) (s : ClipState), s.WF b → clipLoop b fuel s ≠ .divzero := by
  intro fuel
  induction fuel with
  | zero =>
    intro s _ h
    simp [clipLoop] at h
  | succ n ih =>
    intro s hwf h
    obtain ⟨hnd, hnext⟩ := clipIter_good b s hv hwf
    cases hiter : clipIter b s with
    | accept p q => simp [clipLoop, hiter] at h
    | reject => simp [clipLoop, hiter] at h
    | divzero => exact hnd hiter
    | next s2 =>
      obtain ⟨hwf2, _⟩ := hnext s2 hiter
      simp only [clipLoop, hiter] at h
      exact ih s2 hwf2 h

lemma clipLoop_not_stuck (b : Bounds) (hv : b.Valid) :
    ∀ (fuel : ℕ) (s : ClipState), s.WF b →
      clipMeasure b s.x0 s.y0 s.x1 s.y1 < fuel → clipLoop b fuel s ≠ .stuck := by
  intro fuel
  induction fuel with
  | zero =>
    intro s _ hm
    exact absurd hm (Nat.not_lt_zero _)
  | succ n ih =>
    intro s hwf hm h
    obtain ⟨hnd, hnext⟩ := clipIter_good b s hv hwf
    cases hiter : clipIter b s with
    | accept p q => simp [clipLoop, hiter] at h
    | reject => simp [clipLoop, hiter] at h
    | divzero => exact hnd hiter
    | next s2 =>
      obtain ⟨hwf2, hlt⟩ := hnext s2 hiter
      simp only [clipLoop, hiter] at h
      exact ih s2 hwf2 (by omega) h

lemma clipLoop_accepted_inside (b : Bounds) (hv : b.Valid) :
    ∀ (fuel : ℕ) (s : ClipState), s.WF b →
      ∀ p q, clipLoop b fuel s = .accepted p q → Inside b p ∧ Inside b q := by
  intro fuel
  induction fuel with
  | zero =>
    intro s _ p q h
    simp [clipLoop] at h
  | succ n ih =>
    intro s hwf p q h
    cases hiter : clipIter b s with
    | accept p2 q2 =>
      obtain ⟨hOr, hp, hq⟩ := clipIter_accept_inv b s p2 q2 hiter
      simp only [clipLoop, hiter] at h
      injection h with h1 h2
      subst h1
      subst h2
      rw [hp, hq]
      exact inside_of_lor_zero b s hwf hOr
    | reject => simp [clipLoop, hiter] at h
    | divzero => simp [clipLoop, hiter] at h
    | next s2 =>
      obtain ⟨hwf2, _⟩ := (clipIter_good b s hv hwf).2 s2 hiter
      simp only [clipLoop, hiter] at h
      exact ih s2 hwf2 p q h

lemma initState_wf (b : Bounds) (p0 p1 : ℚ × ℚ) : (initState b p0 p1).WF b :=
  ⟨rfl, rfl⟩

lemma clipLoop_accept_eq (b : Bounds) (fuel : ℕ) (s : ClipState)
    (h : s.loc0 ||| s.loc1 = 0) :
    clipLoop b (fuel + 1) s = .accepted (s.x0, s.y0) (s.x1, s.y1) := by
  have hi : clipIter b s = .accept (s.x0, s.y0) (s.x1, s.y1) := by
    unfold clipIter
    rw [if_pos h]
  simp only [clipLoop, hi]

lemma clipLoop_reject_eq (b : Bounds) (fuel : ℕ) (s : ClipState)
    (hOr : ¬(s.loc0 ||| s.loc1 = 0)) (hAnd : s.loc0 &&& s.loc1 ≠ 0) :
    clipLoop b (fuel + 1) s = .rejected := by
  have hi : clipIter b s = .reject := by
    unfold clipIter
    rw [if_neg hOr, if_pos hAnd]
  simp only [clipLoop, hi]

lemma clipLoop_next_then_accept (b : Bounds) (fuel : ℕ) (s s2 : ClipState)
    (h1 : clipIter b s = .next s2) (h2 : s2.loc0 ||| s2.loc1 = 0) :
    clipLoop b (fuel + 2) s = .accepted (s2.x0, s2.y0) (s2.x1, s2.y1) := by
  have h3 : clipLoop b (fuel + 2) s = clipLoop b (fuel + 1) s2 := by
    simp only [clipLoop, h1]
  rw [h3]
  exact clipLoop_accept_eq b fuel s2 h2

/-! ### Single-boundary evaluation of one clipping iteration -/

lemma clipIter_case_top1 (b : Bounds) (s : ClipState) (h0 : s.loc0 = 0)
    (h1 : s.loc1 = 8) (hd : s.y1 - s.y0 ≠ 0) :
    clipIter b s = .next { s with
      x1 := s.x0 + (s.x1 - s.x0) * (b.ymax - s.y0) / (s.y1 - s.y0),
      y1 := b.ymax,
      loc1 := locationRelativeToViewPort b
        (s.x0 + (s.x1 - s.x0) * (b.ymax - s.y0) / (s.y1 - s.y0)) b.ymax } := by
  unfold clipIter
  rw [h0, h1]
  rw [if_neg (by decide : ¬((0 : ℕ) ||| 8 = 0)), if_neg (by decide : ¬((0 : ℕ) &&& 8 ≠ 0))]
  simp only [gt_iff_lt]
  rw [if_pos (by decide : (0 : ℕ) < 8), if_pos (by decide : (8 : ℕ) &&& 8 ≠ 0), if_neg hd]
  unfold updateOuter
  rw [h0, if_neg (by decide : ¬((8 : ℕ) = 0))]

lemma clipIter_case_bottom1 (b : Bounds) (s : ClipState) (h0 : s.loc0 = 0)
    (h1 : s.loc1 = 4) (hd : s.y1 - s.y0 ≠ 0) :
    clipIter b s = .next { s with
      x1 := s.x0 + (s.x1 - s.x0) * (b.ymin - s.y0) / (s.y1 - s.y0),
      y1 := b.ymin,
      loc1 := locationRelativeToViewPort b
        (s.x0 + (s.x1 - s.x0) * (b.ymin - s.y0) / (s.y1 - s.y0)) b.ymin } := by
  unfold clipIter
  rw [h0, h1]
  rw [if_neg (by decide : ¬((0 : ℕ) ||| 4 = 0)), if_neg (by decide : ¬((0 : ℕ) &&& 4 ≠ 0))]
  simp only [gt_iff_lt]
  rw [if_pos (by decide : (0 : ℕ) < 4), if_neg (by decide : ¬((4 : ℕ) &&& 8 ≠ 0)),
    if_pos (by decide : (4 : ℕ) &&& 4 ≠ 0), if_neg hd]
  unfold updateOuter
  rw [h0, if_neg (by decide : ¬((4 : ℕ) = 0))]

lemma clipIter_case_right1 (b : Bounds) (s : ClipState) (h0 : s.loc0 = 0)
    (h1 : s.loc1 = 2) (hd : s.x1 - s.x0 ≠ 0) :
    clipIter b s = .next { s with
      x1 := b.xmax,
      y1 := s.y0 + (s.y1 - s.y0) * (b.xmax - s.x0) / (s.x1 - s.x0),
      loc1 := locationRelativeToViewPort b b.xmax
        (s.y0 + (s.y1 - s.y0) * (b.xmax - s.x0) / (s.x1 - s.x0)) } := by
  unfold clipIter
  rw [h0, h1]
  rw [if_neg (by decide : ¬((0 : ℕ) ||| 2 = 0)), if_neg (by decide : ¬((0 : ℕ) &&& 2 ≠ 0))]
  simp only [gt_iff_lt]
  rw [if_pos (by decide : (0 : ℕ) < 2), if_neg (by decide : ¬((2 : ℕ) &&& 8 ≠ 0)),
    if_neg (by decide : ¬((2 : ℕ) &&& 4 ≠ 0)), if_pos (by decide : (2 : ℕ) &&& 2 ≠ 0),
    if_neg hd]
  unfold updateOuter
  rw [h0, if_neg (by decide : ¬((2 : ℕ) = 0))]

lemma clipIter_case_left1 (b : Bounds) (s : ClipState) (h0 : s.loc0 = 0)
    (h1 : s.loc1 = 1) (hd : s.x1 - s.x0 ≠ 0) :
    clipIter b s = .next { s with
      x1 := b.xmin,
      y1 := s.y0 + (s.y1 - s.y0) * (b.xmin - s.x0) / (s.x1 - s.x0),
      loc1 := locationRelativeToViewPort b b.xmin
        (s.y0 + (s.y1 - s.y0) * (b.xmin - s.x0) / (s.x1 - s.x0)) } := by
  unfold clipIter
  rw [h0, h1]
  rw [if_neg (by decide : ¬((0 : ℕ) ||| 1 = 0)), if_neg (by decide : ¬((0 : ℕ) &&& 1 ≠ 0))]
  simp only [gt_iff_lt]
  rw [if_pos (by decide : (0 : ℕ) < 1), if_neg (by decide : ¬((1 : ℕ) &&& 8 ≠ 0)),
    if_neg (by decide : ¬((1 : ℕ) &&& 4 ≠ 0)), if_neg (by decide : ¬((1 : ℕ) &&& 2 ≠ 0)),
    if_pos (by decide : (1 : ℕ) &&& 1 ≠ 0), if_neg hd]
  unfold updateOuter
  rw [h0, if_neg (by decide : ¬((1 : ℕ) = 0))]

lemma clipIter_case_top0 (b : Bounds) (s : ClipState) (h0 : s.loc0 = 8)
    (h1 : s.loc1 = 0) (hd : s.y1 - s.y0 ≠ 0) :
    clipIter b s = .next { s with
      x0 := s.x0 + (s.x1 - s.x0) * (b.ymax - s.y0) / (s.y1 - s.y0),
      y0 := b.ymax,
      loc0 := locationRelativeToViewPort b
        (s.x0 + (s.x1 - s.x0) * (b.ymax - s.y0) / (s.y1 - s.y0)) b.ymax } := by
  unfold clipIter
  rw [h0, h1]
  rw [if_neg (by decide : ¬((8 : ℕ) ||| 0 = 0)), if_neg (by decide : ¬((8 : ℕ) &&& 0 ≠ 0))]
  simp only [gt_iff_lt]
  rw [if_neg (by decide : ¬((8 : ℕ) < 0)), if_pos (by decide : (8 : ℕ) &&& 8 ≠ 0), if_neg hd]
  unfold updateOuter
  rw [h0, if_pos rfl, h1]

lemma clipIter_case_bottom0 (b : Bounds) (s : ClipState) (h0 : s.loc0 = 4)
    (h1 : s.loc1 = 0) (hd : s.y1 - s.y0 ≠ 0) :
    clipIter b s = .next { s with
      x0 := s.x0 + (s.x1 - s.x0) * (b.ymin - s.y0) / (s.y1 - s.y0),
      y0 := b.ymin,
      loc0 := locationRelativeToViewPort b
        (s.x0 + (s.x1 - s.x0) * (b.ymin - s.y0) / (s.y1 - s.y0)) b.ymin } := by
  unfold clipIter
  rw [h0, h1]
  rw [if_neg (by decide : ¬((4 : ℕ) ||| 0 = 0)), if_neg (by decide : ¬((4 : ℕ) &&& 0 ≠ 0))]
  simp only [gt_iff_lt]
  rw [if_neg (by decide : ¬((4 : ℕ) < 0)), if_neg (by decide : ¬((4 : ℕ) &&& 8 ≠ 0)),
    if_pos (by decide : (4 : ℕ) &&& 4 ≠ 0), if_neg hd]
  unfold updateOuter
  rw [h0, if_pos rfl, h1]

lemma clipIter_case_right0 (b : Bounds) (s : ClipState) (h0 : s.loc0 = 2)
    (h1 : s.loc1 = 0) (hd : s.x1 - s.x0 ≠ 0) :
    clipIter b s = .next { s with
      x0 := b.xmax,
      y0 := s.y0 + (s.y1 - s.y0) * (b.xmax - s.x0) / (s.x1 - s.x0),
      loc0 := locationRelativeToViewPort b b.xmax
        (s.y0 + (s.y1 - s.y0) * (b.xmax - s.x0) / (s.x1 - s.x0)) } := by
  unfold clipIter
  rw [h0, h1]
  rw [if_neg (by decide : ¬((2 : ℕ) ||| 0 = 0)), if_neg (by decide : ¬((2 : ℕ) &&& 0 ≠ 0))]
  simp only [gt_iff_lt]
  rw [if_neg (by decide : ¬((2 : ℕ) < 0)), if_neg (by decide : ¬((2 : ℕ) &&& 8 ≠ 0)),
    if_neg (by decide : ¬((2 : ℕ) &&& 4 ≠ 0)), if_pos (by decide : (2 : ℕ) &&& 2 ≠ 0),
    if_neg hd]
  unfold updateOuter
  rw [h0, if_pos rfl, h1]

lemma clipIter_case_left0 (b : Bounds) (s : ClipState) (h0 : s.loc0 = 1)
    (h1 : s.loc1 = 0) (hd : s.x1 - s.x0 ≠ 0) :
    clipIter b s = .next { s with
      x0 := b.xmin,
      y0 := s.y0 + (s.y1 - s.y0) * (b.xmin - s.x0) / (s.x1 - s.x0),
      loc0 := locationRelativeToViewPort b b.xmin
        (s.y0 + (s.y1 - s.y0) * (b.xmin - s.x0) / (s.x1 - s.x0)) } := by
  unfold clipIter
  rw [h0, h1]
  rw [if_neg (by decide : ¬((1 : ℕ) ||| 0 = 0)), if_neg (by decide : ¬((1 : ℕ) &&& 0 ≠ 0))]
  simp only [gt_iff_lt]
  rw [if_neg (by decide : ¬((1 : ℕ) < 0)), if_neg (by decide : ¬((1 : ℕ) &&& 8 ≠ 0)),
    if_neg (by decide : ¬((1 : ℕ) &&& 4 ≠ 0)), if_neg (by decide : ¬((1 : ℕ) &&& 2 ≠ 0)),
    if_pos (by decide : (1 : ℕ) &&& 1 ≠ 0), if_neg hd]
  unfold updateOuter
  rw [h0, if_pos rfl, h1]

/-! ### Full evaluation of the clipper on single-boundary crossings -/

lemma clip_one_top1 (b : Bounds) (p0 p1 : ℚ × ℚ) (hv : b.Valid)
    (h0 : Inside b p0) (hl1 : locationRelativeToViewPort b p1.1 p1.2 = 8) :
    clipToViewPort b p0 p1 =
      .accepted p0 (p0.1 + (p1.1 - p0.1) * (b.ymax - p0.2) / (p1.2 - p0.2), b.ymax) := by
  have hl0 : locationRelativeToViewPort b p0.1 p0.2 = 0 := loc_inside b p0 h0
  have e1 := loc_eq_add b p1.1 p1.2
  have hm1 := hcode_mem b p1.1
  have vm1 := vcode_mem b p1.2
  have hh1 : hcode b p1.1 = 0 := by omega
  have hv1 : vcode b p1.2 = 8 := by omega
  have hx1 := (hcode_eq_zero_iff b p1.1).1 hh1
  have hout : b.ymax < p1.2 := (vcode_eq_eight_iff b p1.2 hv).1 hv1
  have hd : p1.2 - p0.2 ≠ 0 := sub_ne_zero.2 (lt_of_le_of_lt h0.2.2.2 hout).ne'
  obtain ⟨_, ht0, ht1⟩ := ratio_mem_unit p0.2 p1.2 b.ymax
    (Or.inl ⟨h0.2.2.2, le_of_lt hout, lt_of_le_of_lt h0.2.2.2 hout⟩)
  obtain ⟨hlo, hhi⟩ := convex_between p0.1 p1.1 ((b.ymax - p0.2) / (p1.2 - p0.2)) ht0 ht1
  have hXloc : locationRelativeToViewPort b
      (p0.1 + (p1.1 - p0.1) * (b.ymax - p0.2) / (p1.2 - p0.2)) b.ymax = 0 := by
    apply (loc_eq_zero_iff b _ _).2
    rw [mul_div_assoc]
    exact ⟨le_trans (le_min h0.1 hx1.1) hlo, le_trans hhi (max_le h0.2.1 hx1.2),
      hv.2, le_refl _⟩
  have hstep := clipIter_case_top1 b (initState b p0 p1) hl0 hl1 hd
  exact clipLoop_next_then_accept b 3 (initState b p0 p1) _ hstep
    (by
      show locationRelativeToViewPort b p0.1 p0.2 |||
        locationRelativeToViewPort b
          (p0.1 + (p1.1 - p0.1) * (b.ymax - p0.2) / (p1.2 - p0.2)) b.ymax = 0
      rw [hl0, hXloc]
      decide)

lemma clip_one_bottom1 (b : Bounds) (p0 p1 : ℚ × ℚ) (hv : b.Valid)
    (h0 : Inside b p0) (hl1 : locationRelativeToViewPort b p1.1 p1.2 = 4) :
    clipToViewPort b p0 p1 =
      .accepted p0 (p0.1 + (p1.1 - p0.1) * (b.ymin - p0.2) / (p1.2 - p0.2), b.ymin) := by
  have hl0 : locationRelativeToViewPort b p0.1 p0.2 = 0 := loc_inside b p0 h0
  have e1 := loc_eq_add b p1.1 p1.2
  have hm1 := hcode_mem b p1.1
  have vm1 := vcode_mem b p1.2
  have hh1 : hcode b p1.1 = 0 := by omega
  have hv1 : vcode b p1.2 = 4 := by omega
  have hx1 := (hcode_eq_zero_iff b p1.1).1 hh1
  have hout : p1.2 < b.ymin := (vcode_eq_four_iff b p1.2).1 hv1
  have hd : p1.2 - p0.2 ≠ 0 := sub_ne_zero.2 (lt_of_lt_of_le hout h0.2.2.1).ne
  obtain ⟨_, ht0, ht1⟩ := ratio_mem_unit p0.2 p1.2 b.ymin
    (Or.inr ⟨le_of_lt hout, h0.2.2.1, lt_of_lt_of_le hout h0.2.2.1⟩)
  obtain ⟨hlo, hhi⟩ := convex_between p0.1 p1.1 ((b.ymin - p0.2) / (p1.2 - p0.2)) ht0 ht1
  have hXloc : locationRelativeToViewPort b
      (p0.1 + (p1.1 - p0.1) * (b.ymin - p0.2) / (p1.2 - p0.2)) b.ymin = 0 := by
    apply (loc_eq_zero_iff b _ _).2
    rw [mul_div_assoc]
    exact ⟨le_trans (le_min h0.1 hx1.1) hlo, le_trans hhi (max_le h0.2.1 hx1.2),
      le_refl _, hv.2⟩
  have hstep := clipIter_case_bottom1 b (initState b p0 p1) hl0 hl1 hd
  exact clipLoop_next_then_accept b 3 (initState b p0 p1) _ hstep
    (by
      show locationRelativeToViewPort b p0.1 p0.2 |||
        locationRelativeToViewPort b
          (p0.1 + (p1.1 - p0.1) * (b.ymin - p0.2) / (p1.2 - p0.2)) b.ymin = 0
      rw [hl0, hXloc]
      decide)

lemma clip_one_right1 (b : Bounds) (p0 p1 : ℚ × ℚ) (hv : b.Valid)
    (h0 : Inside b p0) (hl1 : locationRelativeToViewPort b p1.1 p1.2 = 2) :
    clipToViewPort b p0 p1 =
      .accepted p0 (b.xmax, p0.2 + (p1.2 - p0.2) * (b.xmax - p0.1) / (p1.1 - p0.1)) := by
  have hl0 : locationRelativeToViewPort b p0.1 p0.2 = 0 := loc_inside b p0 h0
  have e1 := loc_eq_add b p1.1 p1.2
  have hm1 := hcode_mem b p1.1
  have vm1 := vcode_mem b p1.2
  have hh1 : hcode b p1.1 = 2 := by omega
  have hv1 : vcode b p1.2 = 0 := by omega
  have hy1 := (vcode_eq_zero_iff b p1.2).1 hv1
  have hout : b.xmax < p1.1 := (hcode_eq_two_iff b p1.1 hv).1 hh1
  have hd : p1.1 - p0.1 ≠ 0 := sub_ne_zero.2 (lt_of_le_of_lt h0.2.1 hout).ne'
  obtain ⟨_, ht0, ht1⟩ := ratio_mem_unit p0.1 p1.1 b.xmax
    (Or.inl ⟨h0.2.1, le_of_lt hout, lt_of_le_of_lt h0.2.1 hout⟩)
  obtain ⟨hlo, hhi⟩ := convex_between p0.2 p1.2 ((b.xmax - p0.1) / (p1.1 - p0.1)) ht0 ht1
  have hXloc : locationRelativeToViewPort b b.xmax
      (p0.2 + (p1.2 - p0.2) * (b.xmax - p0.1) / (p1.1 - p0.1)) = 0 := by
    apply (loc_eq_zero_iff b _ _).2
    rw [mul_div_assoc]
    exact ⟨hv.1, le_refl _, le_trans (le_min h0.2.2.1 hy1.1) hlo,
      le_trans hhi (max_le h0.2.2.2 hy1.2)⟩
  have hstep := clipIter_case_right1 b (initState b p0 p1) hl0 hl1 hd
  exact clipLoop_next_then_accept b 3 (initState b p0 p1) _ hstep
    (by
      show locationRelativeToViewPort b p0.1 p0.2 |||
        locationRelativeToViewPort b b.xmax
          (p0.2 + (p1.2 - p0.2) * (b.xmax - p0.1) / (p1.1 - p0.1)) = 0
      rw [hl0, hXloc]
      decide)

lemma clip_one_left1 (b : Bounds) (p0 p1 : ℚ × ℚ) (hv : b.Valid)
    (h0 : Inside b p0) (hl1 : locationRelativeToViewPort b p1.1 p1.2 = 1) :
    clipToViewPort b p0 p1 =
      .accepted p0 (b.xmin, p0.2 + (p1.2 - p0.2) * (b.xmin - p0.1) / (p1.1 - p0.1)) := by
  have hl0 : locationRelativeToViewPort b p0.1 p0.2 = 0 := loc_inside b p0 h0
  have e1 := loc_eq_add b p1.1 p1.2
  have hm1 := hcode_mem b p1.1
  have vm1 := vcode_mem b p1.2
  have hh1 : hcode b p1.1 = 1 := by omega
  have hv1 : vcode b p1.2 = 0 := by omega
  have hy1 := (vcode_eq_zero_iff b p1.2).1 hv1
  have hout : p1.1 < b.xmin := (hcode_eq_one_iff b p1.1).1 hh1
  have hd : p1.1 - p0.1 ≠ 0 := sub_ne_zero.2 (lt_of_lt_of_le hout h0.1).ne
  obtain ⟨_, ht0, ht1⟩ := ratio_mem_unit p0.1 p1.1 b.xmin
    (Or.inr ⟨le_of_lt hout, h0.1, lt_of_lt_of_le hout h0.1⟩)
  obtain ⟨hlo, hhi⟩ := convex_between p0.2 p1.2 ((b.xmin - p0.1) / (p1.1 - p0.1)) ht0 ht1
  have hXloc : locationRelativeToViewPort b b.xmin
      (p0.2 + (p1.2 - p0.2) * (b.xmin - p0.1) / (p1.1 - p0.1)) = 0 := by
    apply (loc_eq_zero_iff b _ _).2
    rw [mul_div_assoc]
    exact ⟨le_refl _, hv.1, le_trans (le_min h0.2.2.1 hy1.1) hlo,
      le_trans hhi (max_le h0.2.2.2 hy1.2)⟩
  have hstep := clipIter_case_left1 b (initState b p0 p1) hl0 hl1 hd
  exact clipLoop_next_then_accept b 3 (initState b p0 p1) _ hstep
    (by
      show locationRelativeToViewPort b p0.1 p0.2 |||
        locationRelativeToViewPort b b.xmin
          (p0.2 + (p1.2 - p0.2) * (b.xmin - p0.1) / (p1.1 - p0.1)) = 0
      rw [hl0, hXloc]
      decide)

lemma clip_one_top0 (b : Bounds) (p0 p1 : ℚ × ℚ) (hv : b.Valid)
    (h1 : Inside b p1) (hl0 : locationRelativeToViewPort b p0.1 p0.2 = 8) :
    clipToViewPort b p0 p1 =
      .accepted (p0.1 + (p1.1 - p0.1) * (b.ymax - p0.2) / (p1.2 - p0.2), b.ymax) p1 := by
  have hl1 : locationRelativeToViewPort b p1.1 p1.2 = 0 := loc_inside b p1 h1
  have e0 := loc_eq_add b p0.1 p0.2
  have hm0 := hcode_mem b p0.1
  have vm0 := vcode_mem b p0.2
  have hh0 : hcode b p0.1 = 0 := by omega
  have hv0 : vcode b p0.2 = 8 := by omega
  have hx0 := (hcode_eq_zero_iff b p0.1).1 hh0
  have hout : b.ymax < p0.2 := (vcode_eq_eight_iff b p0.2 hv).1 hv0
  have hd : p1.2 - p0.2 ≠ 0 := sub_ne_zero.2 (lt_of_le_of_lt h1.2.2.2 hout).ne
  obtain ⟨_, ht0, ht1⟩ := ratio_mem_unit p0.2 p1.2 b.ymax
    (Or.inr ⟨h1.2.2.2, le_of_lt hout, lt_of_le_of_lt h1.2.2.2 hout⟩)
  obtain ⟨hlo, hhi⟩ := convex_between p0.1 p1.1 ((b.ymax - p0.2) / (p1.2 - p0.2)) ht0 ht1
  have hXloc : locationRelativeToViewPort b
      (p0.1 + (p1.1 - p0.1) * (b.ymax - p0.2) / (p1.2 - p0.2)) b.ymax = 0 := by
    apply (loc_eq_zero_iff b _ _).2
    rw [mul_div_assoc]
    exact ⟨le_trans (le_min hx0.1 h1.1) hlo, le_trans hhi (max_le hx0.2 h1.2.1),
      hv.2, le_refl _⟩
  have hstep := clipIter_case_top0 b (initState b p0 p1) hl0 hl1 hd
  exact clipLoop_next_then_accept b 3 (initState b p0 p1) _ hstep
    (by
      show locationRelativeToViewPort b
          (p0.1 + (p1.1 - p0.1) * (b.ymax - p0.2) / (p1.2 - p0.2)) b.ymax |||
        locationRelativeToViewPort b p1.1 p1.2 = 0
      rw [hl1, hXloc]
      decide)

lemma clip_one_bottom0 (b : Bounds) (p0 p1 : ℚ × ℚ) (hv : b.Valid)
    (h1 : Inside b p1) (hl0 : locationRelativeToViewPort b p0.1 p0.2 = 4) :
    clipToViewPort b p0 p1 =
      .accepted (p0.1 + (p1.1 - p0.1) * (b.ymin - p0.2) / (p1.2 - p0.2), b.ymin) p1 := by
  have hl1 : locationRelativeToViewPort b p1.1 p1.2 = 0 := loc_inside b p1 h1
  have e0 := loc_eq_add b p0.1 p0.2
  have hm0 := hcode_mem b p0.1
  have vm0 := vcode_mem b p0.2
  have hh0 : hcode b p0.1 = 0 := by omega
  have hv0 : vcode b p0.2 = 4 := by omega
  have hx0 := (hcode_eq_zero_iff b p0.1).1 hh0
  have hout : p0.2 < b.ymin := (vcode_eq_four_iff b p0.2).1 hv0
  have hd : p1.2 - p0.2 ≠ 0 := sub_ne_zero.2 (lt_of_lt_of_le hout h1.2.2.1).ne'
  obtain ⟨_, ht0, ht1⟩ := ratio_mem_unit p0.2 p1.2 b.ymin
    (Or.inl ⟨le_of_lt hout, h1.2.2.1, lt_of_lt_of_le hout h1.2.2.1⟩)
  obtain ⟨hlo, hhi⟩ := convex_between p0.1 p1.1 ((b.ymin - p0.2) / (p1.2 - p0.2)) ht0 ht1
  have hXloc : locationRelativeToViewPort b
      (p0.1 + (p1.1 - p0.1) * (b.ymin - p0.2) / (p1.2 - p0.2)) b.ymin = 0 := by
    apply (loc_eq_zero_iff b _ _).2
    rw [mul_div_assoc]
    exact ⟨le_trans (le_min hx0.1 h1.1) hlo, le_trans hhi (max_le hx0.2 h1.2.1),
      le_refl _, hv.2⟩
  have hstep := clipIter_case_bottom0 b (initState b p0 p1) hl0 hl1 hd
  exact clipLoop_next_then_accept b 3 (initState b p0 p1) _ hstep
    (by
      show locationRelativeToViewPort b
          (p0.1 + (p1.1 - p0.1) * (b.ymin - p0.2) / (p1.2 - p0.2)) b.ymin |||
        locationRelativeToViewPort b p1.1 p1.2 = 0
      rw [hl1, hXloc]
      decide)

lemma clip_one_right0 (b : Bounds) (p0 p1 : ℚ × ℚ) (hv : b.Valid)
    (h1 : Inside b p1) (hl0 : locationRelativeToViewPort b p0.1 p0.2 = 2) :
    clipToViewPort b p0 p1 =
      .accepted (b.xmax, p0.2 + (p1.2 - p0.2) * (b.xmax - p0.1) / (p1.1 - p0.1)) p1 := by
  have hl1 : locationRelativeToViewPort b p1.1 p1.2 = 0 := loc_inside b p1 h1
  have e0 := loc_eq_add b p0.1 p0.2
  have hm0 := hcode_mem b p0.1
  have vm0 := vcode_mem b p0.2
  have hh0 : hcode b p0.1 = 2 := by omega
  have hv0 : vcode b p0.2 = 0 := by omega
  have hy0 := (vcode_eq_zero_iff b p0.2).1 hv0
  have hout : b.xmax < p0.1 := (hcode_eq_two_iff b p0.1 hv).1 hh0
  have hd : p1.1 - p0.1 ≠ 0 := sub_ne_zero.2 (lt_of_le_of_lt h1.2.1 hout).ne
  obtain ⟨_, ht0, ht1⟩ := ratio_mem_unit p0.1 p1.1 b.xmax
    (Or.inr ⟨h1.2.1, le_of_lt hout, lt_of_le_of_lt h1.2.1 hout⟩)
  obtain ⟨hlo, hhi⟩ := convex_between p0.2 p1.2 ((b.xmax - p0.1) / (p1.1 - p0.1)) ht0 ht1
  have hXloc : locationRelativeToViewPort b b.xmax
      (p0.2 + (p1.2 - p0.2) * (b.xmax - p0.1) / (p1.1 - p0.1)) = 0 := by
    apply (loc_eq_zero_iff b _ _).2
    rw [mul_div_assoc]
    exact ⟨hv.1, le_refl _, le_trans (le_min hy0.1 h1.2.2.1) hlo,
      le_trans hhi (max_le hy0.2 h1.2.2.2)⟩
  have hstep := clipIter_case_right0 b (initState b p0 p1) hl0 hl1 hd
  exact clipLoop_next_then_accept b 3 (initState b p0 p1) _ hstep
    (by
      show locationRelativeToViewPort b b.xmax
          (p0.2 + (p1.2 - p0.2) * (b.xmax - p0.1) / (p1.1 - p0.1)) |||
        locationRelativeToViewPort b p1.1 p1.2 = 0
      rw [hl1, hXloc]
      decide)

lemma clip_one_left0 (b : Bounds) (p0 p1 : ℚ × ℚ) (hv : b.Valid)
    (h1 : Inside b p1) (hl0 : locationRelativeToViewPort b p0.1 p0.2 = 1) :
    clipToViewPort b p0 p1 =
      .accepted (b.xmin, p0.2 + (p1.2 - p0.2) * (b.xmin - p0.1) / (p1.1 - p0.1)) p1 := by
  have hl1 : locationRelativeToViewPort b p1.1 p1.2 = 0 := loc_inside b p1 h1
  have e0 := loc_eq_add b p0.1 p0.2
  have hm0 := hcode_mem b p0.1
  have vm0 := vcode_mem b p0.2
  have hh0 : hcode b p0.1 = 1 := by omega
  have hv0 : vcode b p0.2 = 0 := by omega
  have hy0 := (vcode_eq_zero_iff b p0.2).1 hv0
  have hout : p0.1 < b.xmin := (hcode_eq_one_iff b p0.1).1 hh0
  have hd : p1.1 - p0.1 ≠ 0 := sub_ne_zero.2 (lt_of_lt_of_le hout h1.1).ne'
  obtain ⟨_, ht0, ht1⟩ := ratio_mem_unit p0.1 p1.1 b.xmin
    (Or.inl ⟨le_of_lt hout, h1.1, lt_of_lt_of_le hout h1.1⟩)
  obtain ⟨hlo, hhi⟩ := convex_between p0.2 p1.2 ((b.xmin - p0.1) / (p1.1 - p0.1)) ht0 ht1
  have hXloc : locationRelativeToViewPort b b.xmin
      (p0.2 + (p1.2 - p0.2) * (b.xmin - p0.1) / (p1.1 - p0.1)) = 0 := by
    apply (loc_eq_zero_iff b _ _).2
    rw [mul_div_assoc]
    exact ⟨le_refl _, hv.1, le_trans (le_min hy0.1 h1.2.2.1) hlo,
      le_trans hhi (max_le hy0.2 h1.2.2.2)⟩
  have hstep := clipIter_case_left0 b (initState b p0 p1) hl0 hl1 hd
  exact clipLoop_next_then_accept b 3 (initState b p0 p1) _ hstep
    (by
      show locationRelativeToViewPort b b.xmin
          (p0.2 + (p1.2 - p0.2) * (b.xmin - p0.1) / (p1.1 - p0.1)) |||
        locationRelativeToViewPort b p1.1 p1.2 = 0
      rw [hl1, hXloc]
      decide)

/-- Claim C1: a segment with both endpoints inside `[xmin,xmax]×[ymin,ymax]`
is returned unchanged; a segment whose endpoint outcodes share a set bit
is rejected with the sentinel; and a segment with one endpoint inside
and the other outside across exactly one boundary is accepted with the
outside endpoint replaced by a point lying exactly on that boundary
coordinate. -/
theorem clipToViewPort_accept_reject_oneBoundary (b : Bounds) (hv : b.Valid) :
    (∀ p0 p1 : ℚ × ℚ, Inside b p0 → Inside b p1 →
      clipToViewPort b p0 p1 = .accepted p0 p1) ∧
    (∀ p0 p1 : ℚ × ℚ,
      locationRelativeToViewPort b p0.1 p0.2 &&&
        locationRelativeToViewPort b p1.1 p1.2 ≠ 0 →
      clipToViewPort b p0 p1 = .rejected) ∧
    (∀ p0 p1 : ℚ × ℚ, ∀ c : ℕ, (c = 1 ∨ c = 2 ∨ c = 4 ∨ c = 8) → Inside b p0 →
      locationRelativeToViewPort b p1.1 p1.2 = c →
      ∃ q, clipToViewPort b p0 p1 = .accepted p0 q ∧ OnBoundary b c q) ∧
    (∀ p0 p1 : ℚ × ℚ, ∀ c : ℕ, (c = 1 ∨ c = 2 ∨ c = 4 ∨ c = 8) → Inside b p1 →
      locationRelativeToViewPort b p0.1 p0.2 = c →
      ∃ q, clipToViewPort b p0 p1 = .accepted q p1 ∧ OnBoundary b c q) := by
  refine ⟨?_, ?_, ?_, ?_⟩
  · intro p0 p1 h0 h1
    have hz : (initState b p0 p1).loc0 ||| (initState b p0 p1).loc1 = 0 := by
      show locationRelativeToViewPort b p0.1 p0.2 |||
        locationRelativeToViewPort b p1.1 p1.2 = 0
      rw [loc_inside b p0 h0, loc_inside b p1 h1]
      decide
    exact clipLoop_accept_eq b 4 (initState b p0 p1) hz
  · intro p0 p1 hAnd
    have e0 := loc_eq_add b p0.1 p0.2
    have e1 := loc_eq_add b p1.1 p1.2
    have hOr : ¬(locationRelativeToViewPort b p0.1 p0.2 |||
        locationRelativeToViewPort b p1.1 p1.2 = 0) := by
      intro hz
      obtain ⟨a0, b0, a1, b1⟩ := (code_lor_zero _ _ _ _ (hcode_mem b p0.1)
        (vcode_mem b p0.2) (hcode_mem b p1.1) (vcode_mem b p1.2)).1
        (by rw [← e0, ← e1]; exact hz)
      rw [e0, e1, a0, b0, a1, b1] at hAnd
      exact hAnd (by decide)
    exact clipLoop_reject_eq b 4 (initState b p0 p1) hOr hAnd
  · intro p0 p1 c hc h0 hl1
    rcases hc with rfl | rfl | rfl | rfl
    · exact ⟨_, clip_one_left1 b p0 p1 hv h0 hl1,
        (fun h => absurd h (by decide)), (fun h => absurd h (by decide)),
        (fun h => absurd h (by decide)), (fun _ => rfl)⟩
    · exact ⟨_, clip_one_right1 b p0 p1 hv h0 hl1,
        (fun h => absurd h (by decide)), (fun h => absurd h (by decide)),
        (fun _ => rfl), (fun h => absurd h (by decide))⟩
    · exact ⟨_, clip_one_bottom1 b p0 p1 hv h0 hl1,
        (fun h => absurd h (by decide)), (fun _ => rfl),
        (fun h => absurd h (by decide)), (fun h => absurd h (by decide))⟩
    · exact ⟨_, clip_one_top1 b p0 p1 hv h0 hl1,
        (fun _ => rfl), (fun h => absurd h (by decide)),
        (fun h => absurd h (by decide)), (fun h => absurd h (by decide))⟩
  · intro p0 p1 c hc h1 hl0
    rcases hc with rfl | rfl | rfl | rfl
    · exact ⟨_, clip_one_left0 b p0 p1 hv h1 hl0,
        (fun h => absurd h (by decide)), (fun h => absurd h (by decide)),
        (fun h => absurd h (by decide)), (fun _ => rfl)⟩
    · exact ⟨_, clip_one_right0 b p0 p1 hv h1 hl0,
        (fun h => absurd h (by decide)), (fun h => absurd h (by decide)),
        (fun _ => rfl), (fun h => absurd h (by decide))⟩
    · exact ⟨_, clip_one_bottom0 b p0 p1 hv h1 hl0,
        (fun h => absurd h (by decide)), (fun _ => rfl),
        (fun h => absurd h (by decide)), (fun h => absurd h (by decide))⟩
    · exact ⟨_, clip_one_top0 b p0 p1 hv h1 hl0,
        (fun _ => rfl), (fun h => absurd h (by decide)),
        (fun h => absurd h (by decide)), (fun h => absurd h (by decide))⟩

/-- Witness for C1 at the unit viewport: a fully inside segment, a
fully right-of-viewport segment, and a segment crossing only the top
boundary. -/
theorem clipToViewPort_accept_reject_oneBoundary_witness :
    clipToViewPort ⟨-1, -1, 1, 1⟩ ((0 : ℚ), (0 : ℚ)) ((0 : ℚ), (0 : ℚ)) =
      .accepted (0, 0) (0, 0) ∧
    clipToViewPort ⟨-1, -1, 1, 1⟩ ((2 : ℚ), (2 : ℚ)) ((3 : ℚ), (0 : ℚ)) = .rejected ∧
    (∃ q, clipToViewPort ⟨-1, -1, 1, 1⟩ ((0 : ℚ), (0 : ℚ)) ((0 : ℚ), (2 : ℚ)) =
      .accepted (0, 0) q ∧ OnBoundary ⟨-1, -1, 1, 1⟩ 8 q) := by
  have h := clipToViewPort_accept_reject_oneBoundary ⟨-1, -1, 1, 1⟩
    ⟨by norm_num, by norm_num⟩
  exact ⟨h.1 (0, 0) (0, 0) (by decide) (by decide),
    h.2.1 (2, 2) (3, 0) (by decide),
    h.2.2.1 (0, 0) (0, 2) 8 (Or.inr (Or.inr (Or.inr rfl))) (by decide) (by decide)⟩

/-- Claim C2: for every input segment and every bounds rectangle with
`xmin ≤ xmax` and `ymin ≤ ymax`, the Cohen–Sutherland clipping loop in
`ClipToViewPort` terminates after finitely many iterations (the fuel
bound 5 used by `clipToViewPort` is never exhausted), and no iteration
divides by zero: the explicit `divzero` marker guarding every division
of the embedding is unreachable at every fuel. -/
theorem clipToViewPort_terminates_no_divzero (b : Bounds) (p0 p1 : ℚ × ℚ)
    (hv : b.Valid) :
    clipToViewPort b p0 p1 ≠ .stuck ∧
    ∀ fuel, clipLoop b fuel (initState b p0 p1) ≠ .divzero := by
  constructor
  · unfold clipToViewPort
    apply clipLoop_not_stuck b hv 5 _ (initState_wf b p0 p1)
    have h4 := clipMeasure_le_four b (initState b p0 p1).x0 (initState b p0 p1).y0
      (initState b p0 p1).x1 (initState b p0 p1).y1
    omega
  · exact fun fuel => clipLoop_no_divzero b hv fuel _ (initState_wf b p0 p1)

/-- Witness for C2 at a concrete segment and the unit viewport. -/
theorem clipToViewPort_terminates_no_divzero_witness :
    clipToViewPort ⟨-1, -1, 1, 1⟩ (0, 0) (2, 2) ≠ .stuck ∧
    clipLoop ⟨-1, -1, 1, 1⟩ 2 (initState ⟨-1, -1, 1, 1⟩ (0, 0) (2, 2)) ≠ .divzero := by
  have h := clipToViewPort_terminates_no_divzero ⟨-1, -1, 1, 1⟩ (0, 0) (2, 2)
    ⟨by norm_num, by norm_num⟩
  exact ⟨h.1, h.2 2⟩

/-- Claim C9: `ClipToViewPort` only accepts with both endpoints in
bounds — whenever it returns a pair of finite endpoints both satisfy
`xmin ≤ x ≤ xmax` and `ymin ≤ y ≤ ymax`; consequently
`AddToViewportLines` appends either exactly two in-bounds points or
nothing, so the accumulated lines vector always has even length and
every point in it lies within the viewport bounds. -/
theorem clipAccept_inside_and_lines_invariant (b : Bounds) (hv : b.Valid) :
    (∀ p0 p1 q0 q1 : ℚ × ℚ, clipToViewPort b p0 p1 = .accepted q0 q1 →
      Inside b q0 ∧ Inside b q1) ∧
    (∀ (lines : List (ℚ × ℚ)) (p0 p1 : ℚ × ℚ),
      Even lines.length → (∀ p ∈ lines, Inside b p) →
      Even (addToViewportLines b p0 p1 lines).length ∧
      ∀ p ∈ addToViewportLines b p0 p1 lines, Inside b p) := by
  have key : ∀ p0 p1 q0 q1 : ℚ × ℚ, clipToViewPort b p0 p1 = .accepted q0 q1 →
      Inside b q0 ∧ Inside b q1 := by
    intro p0 p1 q0 q1 h
    exact clipLoop_accepted_inside b hv 5 _ (initState_wf b p0 p1) q0 q1 h
  refine ⟨key, ?_⟩
  intro lines p0 p1 hev hins
  unfold addToViewportLines
  cases hc : clipToViewPort b p0 p1 with
  | accepted q0 q1 =>
    obtain ⟨hq0, hq1⟩ := key p0 p1 q0 q1 hc
    refine ⟨?_, ?_⟩
    · show Even (lines ++ [q0, q1]).length
      rw [List.length_append]
      rw [Nat.even_iff] at hev ⊢
      have h2 : ([q0, q1] : List (ℚ × ℚ)).length = 2 := rfl
      rw [h2]
      omega
    · show ∀ p ∈ lines ++ [q0, q1], Inside b p
      intro p hp
      rcases List.mem_append.1 hp with h | h
      · exact hins p h
      · rcases List.mem_cons.1 h with h1 | h1
        · rw [h1]
          exact hq0
        · rcases List.mem_cons.1 h1 with h2 | h2
          · rw [h2]
            exact hq1
          · exact absurd h2 (List.not_mem_nil p)
  | rejected => exact ⟨hev, hins⟩
  | divzero => exact ⟨hev, hins⟩
  | stuck => exact ⟨hev, hins⟩

lemma toU32_natCast (n : ℕ) : toU32 ((n : ℕ) : ℚ) = n := by
  unfold toU32
  rw [Int.floor_natCast]
  rfl

/-- Witness for C9 at a concrete accepted segment and the empty lines
vector. -/
theorem clipAccept_inside_and_lines_invariant_witness :
    (Inside (⟨-1, -1, 1, 1⟩ : Bounds) ((1 : ℚ), (0 : ℚ)) ∧
      Inside (⟨-1, -1, 1, 1⟩ : Bounds) ((0 : ℚ), (0 : ℚ))) ∧
    (Even (addToViewportLines ⟨-1, -1, 1, 1⟩ (1, 0) (0, 0) []).length ∧
      ∀ p ∈ addToViewportLines ⟨-1, -1, 1, 1⟩ (1, 0) (0, 0) [],
        Inside (⟨-1, -1, 1, 1⟩ : Bounds) p) := by
  have h := clipAccept_inside_and_lines_invariant ⟨-1, -1, 1, 1⟩
    ⟨by norm_num, by norm_num⟩
  refine ⟨h.1 (1, 0) (0, 0) (1, 0) (0, 0) (by decide), h.2 [] (1, 0) (0, 0) (by decide) ?_⟩
  intro p hp
  exact absurd hp (List.not_mem_nil p)

/-! ### Merge fold lemmas -/

lemma foldl_min_spec (f : BBox → ℕ) (l : List BBox) : ∀ (i : ℕ),
    (l.foldl (fun a bx => min a (f bx)) i = i ∧ ∀ bx ∈ l, i ≤ f bx) ∨
    (l.foldl (fun a bx => min a (f bx)) i ∈ l.map f ∧
      (∀ bx ∈ l, l.foldl (fun a bx => min a (f bx)) i ≤ f bx) ∧
      l.foldl (fun a bx => min a (f bx)) i ≤ i) := by
  induction l with
  | nil =>
    intro i
    left
    exact ⟨rfl, fun bx h => absurd h (List.not_mem_nil bx)⟩
  | cons hd tl ih =>
    intro i
    simp only [List.foldl_cons]
    rcases ih (min i (f hd)) with ⟨heq, hall⟩ | ⟨hmem, hall, hle⟩
    · rcases le_total i (f hd) with hc | hc
      · left
        rw [min_eq_left hc] at heq hall ⊢
        refine ⟨heq, ?_⟩
        intro bx hbx
        rcases List.mem_cons.1 hbx with h | h
        · rw [h]
          exact hc
        · exact hall bx h
      · right
        rw [min_eq_right hc] at heq hall ⊢
        refine ⟨?_, ?_, ?_⟩
        · rw [heq]
          exact List.mem_map_of_mem f (List.mem_cons_self hd tl)
        · intro bx hbx
          rcases List.mem_cons.1 hbx with h | h
          · rw [heq, h]
          · rw [heq]
            exact hall bx h
        · rw [heq]
          exact hc
    · right
      refine ⟨List.mem_cons_of_mem (f hd) hmem, ?_, le_trans hle (min_le_left _ _)⟩
      intro bx hbx
      rcases List.mem_cons.1 hbx with h | h
      · rw [h]
        exact le_trans hle (min_le_right _ _)
      · exact hall bx h

lemma foldl_max_spec (f : BBox → ℕ) (l : List BBox) : ∀ (i : ℕ),
    (l.foldl (fun a bx => max a (f bx)) i = i ∧ ∀ bx ∈ l, f bx ≤ i) ∨
    (l.foldl (fun a bx => max a (f bx)) i ∈ l.map f ∧
      (∀ bx ∈ l, f bx ≤ l.foldl (fun a bx => max a (f bx)) i) ∧
      i ≤ l.foldl (fun a bx => max a (f bx)) i) := by
  induction l with
  | nil =>
    intro i
    left
    exact ⟨rfl, fun bx h => absurd h (List.not_mem_nil bx)⟩
  | cons hd tl ih =>
    intro i
    simp only [List.foldl_cons]
    rcases ih (max i (f hd)) with ⟨heq, hall⟩ | ⟨hmem, hall, hle⟩
    · rcases le_total (f hd) i with hc | hc
      · left
        rw [max_eq_left hc] at heq hall ⊢
        refine ⟨heq, ?_⟩
        intro bx hbx
        rcases List.mem_cons.1 hbx with h | h
        · rw [h]
          exact hc
        · exact hall bx h
      · right
        rw [max_eq_right hc] at heq hall ⊢
        refine ⟨?_, ?_, ?_⟩
        · rw [heq]
          exact List.mem_map_of_mem f (List.mem_cons_self hd tl)
        · intro bx hbx
          rcases List.mem_cons.1 hbx with h | h
          · rw [heq, h]
          · rw [heq]
            exact hall bx h
        · rw [heq]
          exact hc
    · right
      refine ⟨List.mem_cons_of_mem (f hd) hmem, ?_, le_trans (le_max_left _ _) hle⟩
      intro bx hbx
      rcases List.mem_cons.1 hbx with h | h
      · rw [h]
        exact le_trans (le_max_right _ _) hle
      · exact hall bx h

lemma foldl_min_attained (f : BBox → ℕ) (l : List BBox) (hne : l ≠ [])
    (hbound : ∀ bx ∈ l, f bx ≤ 4294967295) :
    l.foldl (fun a bx => min a (f bx)) 4294967295 ∈ l.map f ∧
    ∀ bx ∈ l, l.foldl (fun a bx => min a (f bx)) 4294967295 ≤ f bx := by
  rcases foldl_min_spec f l 4294967295 with ⟨heq, hall⟩ | ⟨hmem, hall, _⟩
  · obtain ⟨hd, tl, rfl⟩ := List.exists_cons_of_ne_nil hne
    have h1 : f hd = 4294967295 :=
      le_antisymm (hbound hd (List.mem_cons_self hd tl)) (hall hd (List.mem_cons_self hd tl))
    constructor
    · rw [heq, ← h1]
      exact List.mem_map_of_mem f (List.mem_cons_self hd tl)
    · intro bx hbx
      rw [heq]
      exact hall bx hbx
  · exact ⟨hmem, hall⟩

lemma foldl_max_attained (f : BBox → ℕ) (l : List BBox) (hne : l ≠ []) :
    l.foldl (fun a bx => max a (f bx)) 0 ∈ l.map f ∧
    ∀ bx ∈ l, f bx ≤ l.foldl (fun a bx => max a (f bx)) 0 := by
  rcases foldl_max_spec f l 0 with ⟨heq, hall⟩ | ⟨hmem, hall, _⟩
  · obtain ⟨hd, tl, rfl⟩ := List.exists_cons_of_ne_nil hne
    have h1 : f hd = 0 := Nat.le_zero.1 (hall hd (List.mem_cons_self hd tl))
    constructor
    · rw [heq, ← h1]
      exact List.mem_map_of_mem f (List.mem_cons_self hd tl)
    · intro bx hbx
      rw [heq]
      exact hall bx hbx
  · exact ⟨hmem, hall⟩

/-- Corner values of the Scenario B box `center = (10,10)`,
`size = (4,4)`. -/
lemma cornerVals_b1 :
    cornerMinX (⟨.visibleBox2d, 10, 10, 4, 4, 1⟩ : BBox) = 8 ∧
    cornerMaxX (⟨.visibleBox2d, 10, 10, 4, 4, 1⟩ : BBox) = 12 ∧
    cornerMinY (⟨.visibleBox2d, 10, 10, 4, 4, 1⟩ : BBox) = 8 ∧
    cornerMaxY (⟨.visibleBox2d, 10, 10, 4, 4, 1⟩ : BBox) = 12 := by
  refine ⟨?_, ?_, ?_, ?_⟩
  · unfold cornerMinX
    dsimp only
    rw [show (10 : ℚ) - 4 / 2 = ((8 : ℕ) : ℚ) by norm_num, toU32_natCast]
  · unfold cornerMaxX
    dsimp only
    rw [show (10 : ℚ) + 4 / 2 = ((12 : ℕ) : ℚ) by norm_num, toU32_natCast]
  · unfold cornerMinY
    dsimp only
    rw [show (10 : ℚ) - 4 / 2 = ((8 : ℕ) : ℚ) by norm_num, toU32_natCast]
  · unfold cornerMaxY
    dsimp only
    rw [show (10 : ℚ) + 4 / 2 = ((12 : ℕ) : ℚ) by norm_num, toU32_natCast]

/-- Corner values of the box `center = (20,20)`, `size = (4,4)`. -/
lemma cornerVals_b2 :
    cornerMinX (⟨.visibleBox2d, 20, 20, 4, 4, 1⟩ : BBox) = 18 ∧
    cornerMaxX (⟨.visibleBox2d, 20, 20, 4, 4, 1⟩ : BBox) = 22 ∧
    cornerMinY (⟨.visibleBox2d, 20, 20, 4, 4, 1⟩ : BBox) = 18 ∧
    cornerMaxY (⟨.visibleBox2d, 20, 20, 4, 4, 1⟩ : BBox) = 22 := by
  refine ⟨?_, ?_, ?_, ?_⟩
  · unfold cornerMinX
    dsimp only
    rw [show (20 : ℚ) - 4 / 2 = ((18 : ℕ) : ℚ) by norm_num, toU32_natCast]
  · unfold cornerMaxX
    dsimp only
    rw [show (20 : ℚ) + 4 / 2 = ((22 : ℕ) : ℚ) by norm_num, toU32_natCast]
  · unfold cornerMinY
    dsimp only
    rw [show (20 : ℚ) - 4 / 2 = ((18 : ℕ) : ℚ) by norm_num, toU32_natCast]
  · unfold cornerMaxY
    dsimp only
    rw [show (20 : ℚ) + 4 / 2 = ((22 : ℕ) : ℚ) by norm_num, toU32_natCast]

/-- Corner values of the odd-width box `center = (11,10)`,
`size = (5,4)` — the box `VisibleBoundingBoxes` builds for the pixel
span `[9,14] × [8,12]` (width 5, `center.x = 9 + 5/2 = 11` with
truncating division).  Its real left corner is `11 - 5/2 = 8.5`; the
`uint32_t` conversion truncates it to 8. -/
lemma cornerVals_bhalf :
    cornerMinX (⟨.visibleBox2d, 11, 10, 5, 4, 1⟩ : BBox) = 8 ∧
    cornerMaxX (⟨.visibleBox2d, 11, 10, 5, 4, 1⟩ : BBox) = 13 ∧
    cornerMinY (⟨.visibleBox2d, 11, 10, 5, 4, 1⟩ : BBox) = 8 ∧
    cornerMaxY (⟨.visibleBox2d, 11, 10, 5, 4, 1⟩ : BBox) = 12 := by
  refine ⟨?_, ?_, ?_, ?_⟩
  · unfold cornerMinX toU32
    dsimp only
    have hf : ⌊(11 : ℚ) - 5 / 2⌋ = 8 := by
      rw [Int.floor_eq_iff]
      norm_num
    rw [hf]
    rfl
  · unfold cornerMaxX toU32
    dsimp only
    have hf : ⌊(11 : ℚ) + 5 / 2⌋ = 13 := by
      rw [Int.floor_eq_iff]
      norm_num
    rw [hf]
    rfl
  · unfold cornerMinY
    dsimp only
    rw [show (10 : ℚ) - 4 / 2 = ((8 : ℕ) : ℚ) by norm_num, toU32_natCast]
  · unfold cornerMaxY
    dsimp only
    rw [show (10 : ℚ) + 4 / 2 = ((12 : ℕ) : ℚ) by norm_num, toU32_natCast]

/-- Claim C4: the 2D union merge is idempotent: merging a group
containing exactly one box returns that box unchanged with all fields
identical, and applying the merge to the singleton group containing a
merged result yields the same box as the single merge of the group. -/
theorem mergeBoxes2D_idempotent :
    (∀ (t : BoundingBoxType) (bx : BBox), mergeBoxes2D t [bx] = bx) ∧
    (∀ (t : BoundingBoxType) (boxes : List BBox),
      mergeBoxes2D t [mergeBoxes2D t boxes] = mergeBoxes2D t boxes) := by
  constructor
  · intro t bx
    rfl
  · intro t boxes
    rfl

/-- Counterexample for C3: merging the odd-width box
`center = (11,10)`, `size = (5,4)` — produced by `VisibleBoundingBoxes`
for the pixel span `[9,14] × [8,12]` — with `center = (20,20)`,
`size = (4,4)` yields `center = (15,15)`, `size = (14,14)`, whose left
edge `15 - 14/2 = 8` lies strictly below every input corner
`center - size/2` (the least is `11 - 5/2 = 8.5`): the merged minimum
is not the componentwise minimum over the boxes' corners, because the
code truncates each corner to `uint32_t` before taking minima. -/
theorem mergeBoxes2D_not_exact_union :
    mergeBoxes2D .visibleBox2d
      [⟨.visibleBox2d, 11, 10, 5, 4, 1⟩, ⟨.visibleBox2d, 20, 20, 4, 4, 1⟩] =
      ⟨.visibleBox2d, 15, 15, 14, 14, 1⟩ ∧
    ∀ v ∈ [(⟨.visibleBox2d, 11, 10, 5, 4, 1⟩ : BBox), (⟨.visibleBox2d, 20, 20, 4, 4, 1⟩ : BBox)].map (fun bx => bx.cx - bx.sx / 2),
      (15 : ℚ) - 14 / 2 < v := by
  constructor
  · have m1 : mergeMinX [⟨.visibleBox2d, 11, 10, 5, 4, 1⟩, ⟨.visibleBox2d, 20, 20, 4, 4, 1⟩] = 8 := by
      unfold mergeMinX
      simp only [List.foldl_cons, List.foldl_nil, cornerVals_bhalf.1, cornerVals_b2.1]
      decide
    have m2 : mergeMaxX [⟨.visibleBox2d, 11, 10, 5, 4, 1⟩, ⟨.visibleBox2d, 20, 20, 4, 4, 1⟩] = 22 := by
      unfold mergeMaxX
      simp only [List.foldl_cons, List.foldl_nil, cornerVals_bhalf.2.1, cornerVals_b2.2.1]
      decide
    have m3 : mergeMinY [⟨.visibleBox2d, 11, 10, 5, 4, 1⟩, ⟨.visibleBox2d, 20, 20, 4, 4, 1⟩] = 8 := by
      unfold mergeMinY
      simp only [List.foldl_cons, List.foldl_nil, cornerVals_bhalf.2.2.1, cornerVals_b2.2.2.1]
      decide
    have m4 : mergeMaxY [⟨.visibleBox2d, 11, 10, 5, 4, 1⟩, ⟨.visibleBox2d, 20, 20, 4, 4, 1⟩] = 22 := by
      unfold mergeMaxY
      simp only [List.foldl_cons, List.foldl_nil, cornerVals_bhalf.2.2.2, cornerVals_b2.2.2.2]
      decide
    have hred : mergeBoxes2D .visibleBox2d
        [⟨.visibleBox2d, 11, 10, 5, 4, 1⟩, ⟨.visibleBox2d, 20, 20, 4, 4, 1⟩] =
        { btype := .visibleBox2d,
          cx := (((mergeMinX [⟨.visibleBox2d, 11, 10, 5, 4, 1⟩, ⟨.visibleBox2d, 20, 20, 4, 4, 1⟩] +
            u32sub (mergeMaxX [⟨.visibleBox2d, 11, 10, 5, 4, 1⟩, ⟨.visibleBox2d, 20, 20, 4, 4, 1⟩])
              (mergeMinX [⟨.visibleBox2d, 11, 10, 5, 4, 1⟩, ⟨.visibleBox2d, 20, 20, 4, 4, 1⟩]) / 2) %
              4294967296 : ℕ) : ℚ),
          cy := (((mergeMinY [⟨.visibleBox2d, 11, 10, 5, 4, 1⟩, ⟨.visibleBox2d, 20, 20, 4, 4, 1⟩] +
            u32sub (mergeMaxY [⟨.visibleBox2d, 11, 10, 5, 4, 1⟩, ⟨.visibleBox2d, 20, 20, 4, 4, 1⟩])
              (mergeMinY [⟨.visibleBox2d, 11, 10, 5, 4, 1⟩, ⟨.visibleBox2d, 20, 20, 4, 4, 1⟩]) / 2) %
              4294967296 : ℕ) : ℚ),
          sx := ((u32sub (mergeMaxX [⟨.visibleBox2d, 11, 10, 5, 4, 1⟩, ⟨.visibleBox2d, 20, 20, 4, 4, 1⟩])
            (mergeMinX [⟨.visibleBox2d, 11, 10, 5, 4, 1⟩, ⟨.visibleBox2d, 20, 20, 4, 4, 1⟩]) : ℕ) : ℚ),
          sy := ((u32sub (mergeMaxY [⟨.visibleBox2d, 11, 10, 5, 4, 1⟩, ⟨.visibleBox2d, 20, 20, 4, 4, 1⟩])
            (mergeMinY [⟨.visibleBox2d, 11, 10, 5, 4, 1⟩, ⟨.visibleBox2d, 20, 20, 4, 4, 1⟩]) : ℕ) : ℚ),
          label := 1 } := rfl
    rw [hred, m1, m2, m3, m4]
    have hu : u32sub 22 8 = 14 := by
      unfold u32sub
      norm_num
    rw [hu]
    norm_num
  · intro v hv
    simp only [List.map_cons, List.map_nil, List.mem_cons, List.not_mem_nil,
      or_false] at hv
    rcases hv with rfl | rfl <;> norm_num

/-- Claim C3 (amended): for a group of two or more boxes,
`MergeBoxes2D` computes the axis-aligned union of the
`uint32_t`-truncated corners: each corner `center ∓ size/2` is first
converted to `uint32_t` (truncating), the merged extrema are the
componentwise minima/maxima of those truncated corners, the merged
center and size are derived from that union (with truncating integer
division for the center), and the merged label is the first box's
label.  The union is over truncated corners, not real ones — on boxes
with half-integer corners, as `VisibleBoundingBoxes` produces for odd
pixel widths, the merged extrema can lie strictly below every real
corner (see the counterexample); on integral corners the two coincide,
and in particular Scenario B merges to `center = (15,15)`,
`size = (14,14)`. -/
theorem mergeBoxes2D_union_amended :
    (∀ (t : BoundingBoxType) (boxes : List BBox),
      2 ≤ boxes.length →
      (∀ bx ∈ boxes, cornerMinX bx ≤ cornerMaxX bx ∧ cornerMaxX bx ≤ 4294967295 ∧
        cornerMinY bx ≤ cornerMaxY bx ∧ cornerMaxY bx ≤ 4294967295) →
      ∃ mnX mxX mnY mxY : ℕ,
        (mnX ∈ boxes.map cornerMinX ∧ ∀ bx ∈ boxes, mnX ≤ cornerMinX bx) ∧
        (mxX ∈ boxes.map cornerMaxX ∧ ∀ bx ∈ boxes, cornerMaxX bx ≤ mxX) ∧
        (mnY ∈ boxes.map cornerMinY ∧ ∀ bx ∈ boxes, mnY ≤ cornerMinY bx) ∧
        (mxY ∈ boxes.map cornerMaxY ∧ ∀ bx ∈ boxes, cornerMaxY bx ≤ mxY) ∧
        mergeBoxes2D t boxes =
          { btype := t,
            cx := ((mnX + (mxX - mnX) / 2 : ℕ) : ℚ),
            cy := ((mnY + (mxY - mnY) / 2 : ℕ) : ℚ),
            sx := ((mxX - mnX : ℕ) : ℚ),
            sy := ((mxY - mnY : ℕ) : ℚ),
            label := boxes.headI.label }) ∧
    mergeBoxes2D .visibleBox2d
      [⟨.visibleBox2d, 10, 10, 4, 4, 1⟩, ⟨.visibleBox2d, 20, 20, 4, 4, 1⟩] =
      ⟨.visibleBox2d, 15, 15, 14, 14, 1⟩ := by
  constructor
  · intro t boxes hlen hcb
    rcases boxes with _ | ⟨b0, boxes1⟩
    · simp at hlen
    rcases boxes1 with _ | ⟨b1, tl⟩
    · simp at hlen
    have hne : (b0 :: b1 :: tl) ≠ [] := by simp
    have hbMinX : ∀ bx ∈ b0 :: b1 :: tl, cornerMinX bx ≤ 4294967295 := by
      intro bx hbx
      have hc := hcb bx hbx
      omega
    have hbMinY : ∀ bx ∈ b0 :: b1 :: tl, cornerMinY bx ≤ 4294967295 := by
      intro bx hbx
      have hc := hcb bx hbx
      omega
    obtain ⟨hmemX, hleX⟩ := foldl_min_attained cornerMinX _ hne hbMinX
    obtain ⟨hmemX2, hleX2⟩ := foldl_max_attained cornerMaxX _ hne
    obtain ⟨hmemY, hleY⟩ := foldl_min_attained cornerMinY _ hne hbMinY
    obtain ⟨hmemY2, hleY2⟩ := foldl_max_attained cornerMaxY _ hne
    refine ⟨mergeMinX (b0 :: b1 :: tl), mergeMaxX (b0 :: b1 :: tl),
      mergeMinY (b0 :: b1 :: tl), mergeMaxY (b0 :: b1 :: tl),
      ⟨hmemX, hleX⟩, ⟨hmemX2, hleX2⟩, ⟨hmemY, hleY⟩, ⟨hmemY2, hleY2⟩, ?_⟩
    have hk := hcb b0 (List.mem_cons_self b0 (b1 :: tl))
    have h1 : mergeMinX (b0 :: b1 :: tl) ≤ cornerMinX b0 :=
      hleX b0 (List.mem_cons_self b0 (b1 :: tl))
    have h2 : cornerMaxX b0 ≤ mergeMaxX (b0 :: b1 :: tl) :=
      hleX2 b0 (List.mem_cons_self b0 (b1 :: tl))
    have h3 : mergeMaxX (b0 :: b1 :: tl) ≤ 4294967295 := by
      obtain ⟨bxm, hbxm, heqm⟩ := List.mem_map.1 hmemX2
      have hcm := hcb bxm hbxm
      have heqm2 : cornerMaxX bxm = mergeMaxX (b0 :: b1 :: tl) := heqm
      omega
    have h4 : mergeMinY (b0 :: b1 :: tl) ≤ cornerMinY b0 :=
      hleY b0 (List.mem_cons_self b0 (b1 :: tl))
    have h5 : cornerMaxY b0 ≤ mergeMaxY (b0 :: b1 :: tl) :=
      hleY2 b0 (List.mem_cons_self b0 (b1 :: tl))
    have h6 : mergeMaxY (b0 :: b1 :: tl) ≤ 4294967295 := by
      obtain ⟨bxm, hbxm, heqm⟩ := List.mem_map.1 hmemY2
      have hcm := hcb bxm hbxm
      have heqm2 : cornerMaxY bxm = mergeMaxY (b0 :: b1 :: tl) := heqm
      omega
    have ew : u32sub (mergeMaxX (b0 :: b1 :: tl)) (mergeMinX (b0 :: b1 :: tl)) =
        mergeMaxX (b0 :: b1 :: tl) - mergeMinX (b0 :: b1 :: tl) := by
      unfold u32sub
      omega
    have eh : u32sub (mergeMaxY (b0 :: b1 :: tl)) (mergeMinY (b0 :: b1 :: tl)) =
        mergeMaxY (b0 :: b1 :: tl) - mergeMinY (b0 :: b1 :: tl) := by
      unfold u32sub
      omega
    have ec : (mergeMinX (b0 :: b1 :: tl) +
        (mergeMaxX (b0 :: b1 :: tl) - mergeMinX (b0 :: b1 :: tl)) / 2) % 4294967296 =
        mergeMinX (b0 :: b1 :: tl) +
        (mergeMaxX (b0 :: b1 :: tl) - mergeMinX (b0 :: b1 :: tl)) / 2 := by
      have hds := Nat.div_le_self
        (mergeMaxX (b0 :: b1 :: tl) - mergeMinX (b0 :: b1 :: tl)) 2
      omega
    have ed : (mergeMinY (b0 :: b1 :: tl) +
        (mergeMaxY (b0 :: b1 :: tl) - mergeMinY (b0 :: b1 :: tl)) / 2) % 4294967296 =
        mergeMinY (b0 :: b1 :: tl) +
        (mergeMaxY (b0 :: b1 :: tl) - mergeMinY (b0 :: b1 :: tl)) / 2 := by
      have hds := Nat.div_le_self
        (mergeMaxY (b0 :: b1 :: tl) - mergeMinY (b0 :: b1 :: tl)) 2
      omega
    have hred : mergeBoxes2D t (b0 :: b1 :: tl) =
        { btype := t,
          cx := (((mergeMinX (b0 :: b1 :: tl) +
            u32sub (mergeMaxX (b0 :: b1 :: tl)) (mergeMinX (b0 :: b1 :: tl)) / 2) %
              4294967296 : ℕ) : ℚ),
          cy := (((mergeMinY (b0 :: b1 :: tl) +
            u32sub (mergeMaxY (b0 :: b1 :: tl)) (mergeMinY (b0 :: b1 :: tl)) / 2) %
              4294967296 : ℕ) : ℚ),
          sx := ((u32sub (mergeMaxX (b0 :: b1 :: tl)) (mergeMinX (b0 :: b1 :: tl)) : ℕ) : ℚ),
          sy := ((u32sub (mergeMaxY (b0 :: b1 :: tl)) (mergeMinY (b0 :: b1 :: tl)) : ℕ) : ℚ),
          label := (b0 :: b1 :: tl).headI.label } := rfl
    rw [hred, ew, eh, ec, ed]
  · have m1 : mergeMinX [⟨.visibleBox2d, 10, 10, 4, 4, 1⟩, ⟨.visibleBox2d, 20, 20, 4, 4, 1⟩] = 8 := by
      unfold mergeMinX
      simp only [List.foldl_cons, List.foldl_nil, cornerVals_b1.1, cornerVals_b2.1]
      decide
    have m2 : mergeMaxX [⟨.visibleBox2d, 10, 10, 4, 4, 1⟩, ⟨.visibleBox2d, 20, 20, 4, 4, 1⟩] = 22 := by
      unfold mergeMaxX
      simp only [List.foldl_cons, List.foldl_nil, cornerVals_b1.2.1, cornerVals_b2.2.1]
      decide
    have m3 : mergeMinY [⟨.visibleBox2d, 10, 10, 4, 4, 1⟩, ⟨.visibleBox2d, 20, 20, 4, 4, 1⟩] = 8 := by
      unfold mergeMinY
      simp only [List.foldl_cons, List.foldl_nil, cornerVals_b1.2.2.1, cornerVals_b2.2.2.1]
      decide
    have m4 : mergeMaxY [⟨.visibleBox2d, 10, 10, 4, 4, 1⟩, ⟨.visibleBox2d, 20, 20, 4, 4, 1⟩] = 22 := by
      unfold mergeMaxY
      simp only [List.foldl_cons, List.foldl_nil, cornerVals_b1.2.2.2, cornerVals_b2.2.2.2]
      decide
    have hred2 : mergeBoxes2D .visibleBox2d
        [⟨.visibleBox2d, 10, 10, 4, 4, 1⟩, ⟨.visibleBox2d, 20, 20, 4, 4, 1⟩] =
        { btype := .visibleBox2d,
          cx := (((mergeMinX [⟨.visibleBox2d, 10, 10, 4, 4, 1⟩, ⟨.visibleBox2d, 20, 20, 4, 4, 1⟩] +
            u32sub (mergeMaxX [⟨.visibleBox2d, 10, 10, 4, 4, 1⟩, ⟨.visibleBox2d, 20, 20, 4, 4, 1⟩])
              (mergeMinX [⟨.visibleBox2d, 10, 10, 4, 4, 1⟩, ⟨.visibleBox2d, 20, 20, 4, 4, 1⟩]) / 2) %
              4294967296 : ℕ) : ℚ),
          cy := (((mergeMinY [⟨.visibleBox2d, 10, 10, 4, 4, 1⟩, ⟨.visibleBox2d, 20, 20, 4, 4, 1⟩] +
            u32sub (mergeMaxY [⟨.visibleBox2d, 10, 10, 4, 4, 1⟩, ⟨.visibleBox2d, 20, 20, 4, 4, 1⟩])
              (mergeMinY [⟨.visibleBox2d, 10, 10, 4, 4, 1⟩, ⟨.visibleBox2d, 20, 20, 4, 4, 1⟩]) / 2) %
              4294967296 : ℕ) : ℚ),
          sx := ((u32sub (mergeMaxX [⟨.visibleBox2d, 10, 10, 4, 4, 1⟩, ⟨.visibleBox2d, 20, 20, 4, 4, 1⟩])
            (mergeMinX [⟨.visibleBox2d, 10, 10, 4, 4, 1⟩, ⟨.visibleBox2d, 20, 20, 4, 4, 1⟩]) : ℕ) : ℚ),
          sy := ((u32sub (mergeMaxY [⟨.visibleBox2d, 10, 10, 4, 4, 1⟩, ⟨.visibleBox2d, 20, 20, 4, 4, 1⟩])
            (mergeMinY [⟨.visibleBox2d, 10, 10, 4, 4, 1⟩, ⟨.visibleBox2d, 20, 20, 4, 4, 1⟩]) : ℕ) : ℚ),
          label := 1 } := rfl
    rw [hred2, m1, m2, m3, m4]
    have hu : u32sub 22 8 = 14 := by
      unfold u32sub
      norm_num
    rw [hu]
    norm_num

/-- Witness for C3: the general truncated-corner union statement
applied to the two boxes of Scenario B. -/
theorem mergeBoxes2D_union_amended_witness :
    ∃ mnX mxX mnY mxY : ℕ,
      (mnX ∈ [(⟨.visibleBox2d, 10, 10, 4, 4, 1⟩ : BBox), (⟨.visibleBox2d, 20, 20, 4, 4, 1⟩ : BBox)].map cornerMinX ∧
        ∀ bx ∈ [(⟨.visibleBox2d, 10, 10, 4, 4, 1⟩ : BBox), (⟨.visibleBox2d, 20, 20, 4, 4, 1⟩ : BBox)], mnX ≤ cornerMinX bx) ∧
      (mxX ∈ [(⟨.visibleBox2d, 10, 10, 4, 4, 1⟩ : BBox), (⟨.visibleBox2d, 20, 20, 4, 4, 1⟩ : BBox)].map cornerMaxX ∧
        ∀ bx ∈ [(⟨.visibleBox2d, 10, 10, 4, 4, 1⟩ : BBox), (⟨.visibleBox2d, 20, 20, 4, 4, 1⟩ : BBox)], cornerMaxX bx ≤ mxX) ∧
      (mnY ∈ [(⟨.visibleBox2d, 10, 10, 4, 4, 1⟩ : BBox), (⟨.visibleBox2d, 20, 20, 4, 4, 1⟩ : BBox)].map cornerMinY ∧
        ∀ bx ∈ [(⟨.visibleBox2d, 10, 10, 4, 4, 1⟩ : BBox), (⟨.visibleBox2d, 20, 20, 4, 4, 1⟩ : BBox)], mnY ≤ cornerMinY bx) ∧
      (mxY ∈ [(⟨.visibleBox2d, 10, 10, 4, 4, 1⟩ : BBox), (⟨.visibleBox2d, 20, 20, 4, 4, 1⟩ : BBox)].map cornerMaxY ∧
        ∀ bx ∈ [(⟨.visibleBox2d, 10, 10, 4, 4, 1⟩ : BBox), (⟨.visibleBox2d, 20, 20, 4, 4, 1⟩ : BBox)], cornerMaxY bx ≤ mxY) ∧
      mergeBoxes2D .visibleBox2d [(⟨.visibleBox2d, 10, 10, 4, 4, 1⟩ : BBox), (⟨.visibleBox2d, 20, 20, 4, 4, 1⟩ : BBox)] =
        { btype := .visibleBox2d,
          cx := ((mnX + (mxX - mnX) / 2 : ℕ) : ℚ),
          cy := ((mnY + (mxY - mnY) / 2 : ℕ) : ℚ),
          sx := ((mxX - mnX : ℕ) : ℚ),
          sy := ((mxY - mnY : ℕ) : ℚ),
          label := [(⟨.visibleBox2d, 10, 10, 4, 4, 1⟩ : BBox), (⟨.visibleBox2d, 20, 20, 4, 4, 1⟩ : BBox)].headI.label } := by
  apply mergeBoxes2D_union_amended.1 .visibleBox2d [(⟨.visibleBox2d, 10, 10, 4, 4, 1⟩ : BBox), (⟨.visibleBox2d, 20, 20, 4, 4, 1⟩ : BBox)] (by decide)
  intro bx hbx
  rcases List.mem_cons.1 hbx with h | h
  · subst h
    rw [cornerVals_b1.1, cornerVals_b1.2.1, cornerVals_b1.2.2.1, cornerVals_b1.2.2.2]
    decide
  rcases List.mem_cons.1 h with h2 | h2
  · subst h2
    rw [cornerVals_b2.1, cornerVals_b2.2.1, cornerVals_b2.2.2.1, cornerVals_b2.2.2.2]
    decide
  · exact absurd h2 (List.not_mem_nil bx)

/-- Claim C5: for every identifier in `[0, 65535]`, encoding it as
`(idHigh = id / 256, idLow = id % 256)` and decoding with
`idHigh * 256 + idLow` — the rule used when scanning the identifier
buffer — recovers the original id exactly. -/
theorem encode_decode_id (id : ℕ) (h : id ≤ 65535) :
    decodeId (encodeId id).1 (encodeId id).2 = id := by
  unfold decodeId encodeId
  have h2 := Nat.div_add_mod id 256
  omega

/-- Witness for C5 at `id = 7`. -/
theorem encode_decode_id_witness :
    7 ≤ 65535 ∧ decodeId (encodeId 7).1 (encodeId 7).2 = 7 :=
  ⟨by decide, encode_decode_id 7 (by decide)⟩

lemma markVisibleStep_bg (bg : ℕ) (buf : ℕ → ℕ) (w : ℕ) (m : ℕ → Option ℕ)
    (p : ℕ × ℕ) (hbg : buf ((p.2 * w + p.1) * 3 + 2) = bg) :
    markVisibleStep bg buf w m p = m := by
  simp only [markVisibleStep]
  rw [if_neg (not_not_intro hbg)]

lemma visibleScanStep_bg (bg : ℕ) (buf : ℕ → ℕ) (w h : ℕ)
    (m : ℕ → Option (ℕ × PixelBoundary)) (p : ℕ × ℕ)
    (hbg : buf ((p.2 * w + p.1) * 3 + 2) = bg) :
    visibleScanStep bg buf w h m p = m := by
  simp only [visibleScanStep]
  rw [if_neg (not_not_intro hbg)]

lemma markVisible_fold_char (bg : ℕ) (buf : ℕ → ℕ) (w : ℕ) :
    ∀ (l : List (ℕ × ℕ)) (m : ℕ → Option ℕ) (id : ℕ),
      l.foldl (markVisibleStep bg buf w) m id =
        match m id with
        | some v => some v
        | none => (l.find? (pixelHit bg buf w id)).map (labelAt buf w) := by
  intro l
  induction l with
  | nil =>
    intro m id
    cases hm : m id <;> simp [hm]
  | cons p t ih =>
    intro m id
    simp only [List.foldl_cons]
    rw [ih]
    by_cases hbg : buf ((p.2 * w + p.1) * 3 + 2) = bg
    · rw [markVisibleStep_bg bg buf w m p hbg,
        List.find?_cons_of_neg t (by simp [pixelHit, labelAt, hbg])]
    · by_cases hpid : decodeId (buf ((p.2 * w + p.1) * 3 + 1)) (buf ((p.2 * w + p.1) * 3)) = id
      · rw [List.find?_cons_of_pos t (by simp [pixelHit, labelAt, hbg, hpid])]
        cases hm : m id with
        | some v =>
          have hs : (m (decodeId (buf ((p.2 * w + p.1) * 3 + 1))
              (buf ((p.2 * w + p.1) * 3)))).isSome = true := by
            rw [hpid, hm]
            rfl
          have hfun : markVisibleStep bg buf w m p = m := by
            simp only [markVisibleStep]
            rw [if_pos hbg, if_pos hs]
          rw [hfun, hm]
        | none =>
          have hs : ¬((m (decodeId (buf ((p.2 * w + p.1) * 3 + 1))
              (buf ((p.2 * w + p.1) * 3)))).isSome = true) := by
            rw [hpid, hm]
            simp
          have hfun : markVisibleStep bg buf w m p =
              (fun k => if k = decodeId (buf ((p.2 * w + p.1) * 3 + 1))
                (buf ((p.2 * w + p.1) * 3)) then
                  some (buf ((p.2 * w + p.1) * 3 + 2)) else m k) := by
            simp only [markVisibleStep]
            rw [if_pos hbg, if_neg hs]
          rw [hfun]
          dsimp only
          rw [if_pos hpid.symm]
          rfl
      · rw [List.find?_cons_of_neg t (by simp [pixelHit, hpid])]
        have hstep : markVisibleStep bg buf w m p id = m id := by
          simp only [markVisibleStep]
          rw [if_pos hbg]
          by_cases hs : (m (decodeId (buf ((p.2 * w + p.1) * 3 + 1))
              (buf ((p.2 * w + p.1) * 3)))).isSome = true
          · rw [if_pos hs]
          · rw [if_neg hs]
            rw [if_neg (fun hc => hpid hc.symm)]
        rw [hstep]

lemma visibleScan_fold_char (bg : ℕ) (buf : ℕ → ℕ) (w h : ℕ) :
    ∀ (l : List (ℕ × ℕ)) (m : ℕ → Option (ℕ × PixelBoundary)) (id : ℕ),
      (l.foldl (visibleScanStep bg buf w h) m id).map Prod.fst =
        match (m id).map Prod.fst with
        | some v => some v
        | none => (l.find? (pixelHit bg buf w id)).map (labelAt buf w) := by
  intro l
  induction l with
  | nil =>
    intro m id
    cases hm : m id <;> simp [hm]
  | cons p t ih =>
    intro m id
    simp only [List.foldl_cons]
    rw [ih]
    by_cases hbg : buf ((p.2 * w + p.1) * 3 + 2) = bg
    · rw [visibleScanStep_bg bg buf w h m p hbg,
        List.find?_cons_of_neg t (by simp [pixelHit, labelAt, hbg])]
    · by_cases hpid : decodeId (buf ((p.2 * w + p.1) * 3 + 1)) (buf ((p.2 * w + p.1) * 3)) = id
      · rw [List.find?_cons_of_pos t (by simp [pixelHit, labelAt, hbg, hpid])]
        cases hm : m id with
        | some e =>
          have hfun : visibleScanStep bg buf w h m p = (fun k =>
              if k = id then
                some (e.1, ⟨min e.2.minX p.1, min e.2.minY p.2,
                  max e.2.maxX p.1, max e.2.maxY p.2⟩)
              else m k) := by
            simp only [visibleScanStep]
            rw [if_pos hbg, hpid, hm]
          rw [hfun]
          dsimp only
          rw [if_pos rfl]
          rfl
        | none =>
          have hfun : visibleScanStep bg buf w h m p = (fun k =>
              if k = id then
                some (buf ((p.2 * w + p.1) * 3 + 2),
                  ⟨min w p.1, min h p.2, max 0 p.1, max 0 p.2⟩)
              else m k) := by
            simp only [visibleScanStep]
            rw [if_pos hbg, hpid, hm]
          rw [hfun]
          dsimp only
          rw [if_pos rfl]
          rfl
      · rw [List.find?_cons_of_neg t (by simp [pixelHit, hpid])]
        have hstep : visibleScanStep bg buf w h m p id = m id := by
          simp only [visibleScanStep]
          rw [if_pos hbg]
          rw [if_neg (fun hc => hpid hc.symm)]
        rw [hstep]

/-- Claim C6: pixels whose label equals the background label contribute
nothing to either scan — the per-pixel step is the identity on the
`visibleBoxesLabel` map and on the per-object (label, extents) map —
and the label stored for an object id is the label of the first
non-background pixel of that id in row-major scan order (first label
seen wins), in both `MarkVisibleBoxes` and `VisibleBoundingBoxes`. -/
theorem background_excluded_first_label_wins (bg : ℕ) (buf : ℕ → ℕ) (w h : ℕ) :
    (∀ (m : ℕ → Option ℕ) (p : ℕ × ℕ), labelAt buf w p = bg →
      markVisibleStep bg buf w m p = m) ∧
    (∀ (m : ℕ → Option (ℕ × PixelBoundary)) (p : ℕ × ℕ), labelAt buf w p = bg →
      visibleScanStep bg buf w h m p = m) ∧
    (∀ id : ℕ, markVisibleBoxes bg buf w h id =
      ((rowMajorPixels w h).find? (pixelHit bg buf w id)).map (labelAt buf w)) ∧
    (∀ id : ℕ, (visibleScan bg buf w h id).map Prod.fst =
      ((rowMajorPixels w h).find? (pixelHit bg buf w id)).map (labelAt buf w)) := by
  refine ⟨?_, ?_, ?_, ?_⟩
  · intro m p hbg
    exact markVisibleStep_bg bg buf w m p hbg
  · intro m p hbg
    exact visibleScanStep_bg bg buf w h m p hbg
  · intro id
    unfold markVisibleBoxes
    rw [markVisible_fold_char bg buf w (rowMajorPixels w h) (fun _ => none) id]
  · intro id
    unfold visibleScan
    rw [visibleScan_fold_char bg buf w h (rowMajorPixels w h) (fun _ => none) id]
    rfl

/-- Witness for C6 on an all-background 2×1 buffer. -/
theorem background_excluded_first_label_wins_witness :
    (markVisibleStep 0 (fun _ => 0) 2 (fun _ => none) (0, 0) = (fun _ => none)) ∧
    (visibleScanStep 0 (fun _ => 0) 2 1 (fun _ => none) (0, 0) = (fun _ => none)) ∧
    markVisibleBoxes 0 (fun _ => 0) 2 1 5 =
      ((rowMajorPixels 2 1).find? (pixelHit 0 (fun _ => 0) 2 5)).map
        (labelAt (fun _ => 0) 2) := by
  have h := background_excluded_first_label_wins 0 (fun _ => 0) 2 1
  exact ⟨h.1 (fun _ => none) (0, 0) rfl, h.2.1 (fun _ => none) (0, 0) rfl, h.2.2.1 5⟩

/-- On a perfectly horizontal line (`dy = 0`, error term nonpositive)
the shallow loop plots the pixels `x, x+1, …, x+n-1` on row `y` and
touches nothing else. -/
lemma drawLineLowLoop_flat (w : ℕ) :
    ∀ (n : ℕ) (data : ℤ → ℕ) (x y D dx yi : ℤ), D ≤ 0 →
      (∀ k : ℕ, k < n → ∀ r : ℤ, 0 ≤ r → r ≤ 2 →
        drawLineLowLoop w n data x y D dx 0 yi ((y * (w : ℤ) + x + (k : ℤ)) * 3 + r) =
          if r = 1 then 255 else 0) ∧
      (∀ i : ℤ,
        (∀ k : ℕ, k < n → i < (y * (w : ℤ) + x + (k : ℤ)) * 3 ∨
          (y * (w : ℤ) + x + (k : ℤ)) * 3 + 2 < i) →
        drawLineLowLoop w n data x y D dx 0 yi i = data i) := by
  intro n
  induction n with
  | zero =>
    intro data x y D dx yi hD
    refine ⟨?_, ?_⟩
    · intro k hk
      exact absurd hk (Nat.not_lt_zero k)
    · intro i _
      rfl
  | succ n ih =>
    intro data x y D dx yi hD
    have hred : drawLineLowLoop w (n + 1) data x y D dx 0 yi =
        drawLineLowLoop w n (plotPixel w data x y) (x + 1) y (D + 2 * 0) dx 0 yi := by
      simp only [drawLineLowLoop]
      rw [if_neg (not_lt.2 hD), if_neg (not_lt.2 hD)]
    obtain ⟨ih1, ih2⟩ := ih (plotPixel w data x y) (x + 1) y (D + 2 * 0) dx yi (by omega)
    constructor
    · intro k hk r hr0 hr2
      rw [hred]
      rcases k with _ | j
      · have hbase : ((y * (w : ℤ) + x + ((0 : ℕ) : ℤ)) * 3 + r) =
            (y * (w : ℤ) + x) * 3 + r := by
          push_cast
          ring
        rw [hbase]
        have hframe : ∀ j : ℕ, j < n → (y * (w : ℤ) + x) * 3 + r <
            (y * (w : ℤ) + (x + 1) + (j : ℤ)) * 3 ∨
            (y * (w : ℤ) + (x + 1) + (j : ℤ)) * 3 + 2 < (y * (w : ℤ) + x) * 3 + r := by
          intro j hj
          left
          have hexp : (y * (w : ℤ) + (x + 1) + (j : ℤ)) =
              (y * (w : ℤ) + x) + ((j : ℤ) + 1) := by ring
          rw [hexp]
          have hj0 : (0 : ℤ) ≤ (j : ℤ) := Int.natCast_nonneg j
          nlinarith
        rw [ih2 ((y * (w : ℤ) + x) * 3 + r) hframe]
        have h3 : r = 0 ∨ r = 1 ∨ r = 2 := by omega
        unfold plotPixel
        rcases h3 with rfl | rfl | rfl
        · rw [if_pos (by ring)]
          norm_num
        · rw [if_neg (by omega), if_pos rfl]
          norm_num
        · rw [if_neg (by omega), if_neg (by omega), if_pos rfl]
          norm_num
      · have hidx : ((y * (w : ℤ) + x + ((j + 1 : ℕ) : ℤ)) * 3 + r) =
            ((y * (w : ℤ) + (x + 1) + (j : ℤ)) * 3 + r) := by
          push_cast
          ring
        rw [hidx]
        exact ih1 j (by omega) r hr0 hr2
    · intro i hout
      rw [hred]
      have hframe2 : ∀ j : ℕ, j < n → i < (y * (w : ℤ) + (x + 1) + (j : ℤ)) * 3 ∨
          (y * (w : ℤ) + (x + 1) + (j : ℤ)) * 3 + 2 < i := by
        intro j hj
        have hjj := hout (j + 1) (by omega)
        have hidx : (y * (w : ℤ) + x + ((j + 1 : ℕ) : ℤ)) =
            (y * (w : ℤ) + (x + 1) + (j : ℤ)) := by
          push_cast
          ring
        rw [hidx] at hjj
        exact hjj
      rw [ih2 i hframe2]
      have h0 := hout 0 (Nat.succ_pos n)
      have hc : i ≠ (y * (w : ℤ) + x) * 3 ∧ i ≠ (y * (w : ℤ) + x) * 3 + 1 ∧
          i ≠ (y * (w : ℤ) + x) * 3 + 2 := by
        push_cast at h0
        omega
      unfold plotPixel
      rw [if_neg hc.1, if_neg hc.2.1, if_neg hc.2.2]

lemma drawLine_scenD_eq :
    drawLine 200 (fun _ => 0) ((0 : ℤ), (0 : ℤ)) ((199 : ℤ), (0 : ℤ)) =
      drawLineLowLoop 200 199 (fun _ => 0) 0 0 (2 * 0 - 199) 199 0 1 := by
  unfold drawLine
  norm_num
  rw [show Int.toNat 199 = 199 from rfl]

lemma drawLine_scenD_plot (k : ℕ) (hk : k < 199) (r : ℤ) (hr0 : 0 ≤ r) (hr2 : r ≤ 2) :
    drawLine 200 (fun _ => 0) ((0 : ℤ), (0 : ℤ)) ((199 : ℤ), (0 : ℤ))
      (((0 : ℤ) * 200 + 0 + (k : ℤ)) * 3 + r) = if r = 1 then 255 else 0 := by
  rw [drawLine_scenD_eq]
  exact (drawLineLowLoop_flat 200 199 (fun _ => 0) 0 0 (2 * 0 - 199) 199 1
    (by norm_num)).1 k hk r hr0 hr2

lemma drawLine_scenD_miss :
    drawLine 200 (fun _ => 0) ((0 : ℤ), (0 : ℤ)) ((199 : ℤ), (0 : ℤ))
      (((0 : ℤ) * 200 + 0 + 199) * 3 + 1) = 0 := by
  rw [drawLine_scenD_eq]
  apply (drawLineLowLoop_flat 200 199 (fun _ => 0) 0 0 (2 * 0 - 199) 199 1
    (by norm_num)).2
  intro k hk
  right
  push_cast
  omega

set_option maxRecDepth 2000 in
lemma countGreenRow_scenD :
    countGreenRow (drawLine 200 (fun _ => 0) ((0 : ℤ), (0 : ℤ)) ((199 : ℤ), (0 : ℤ)))
      200 0 200 = 199 := by
  unfold countGreenRow
  have hcong : ∀ x ∈ List.range 200,
      (decide (drawLine 200 (fun _ => 0) ((0 : ℤ), (0 : ℤ)) ((199 : ℤ), (0 : ℤ))
        (((0 : ℤ) * (200 : ℕ) + (x : ℤ)) * 3 + 1) = 255)) = decide (x < 199) := by
    intro x hx
    have hx200 : x < 200 := List.mem_range.1 hx
    by_cases hx199 : x < 199
    · have hp := drawLine_scenD_plot x hx199 1 (by norm_num) (by norm_num)
      rw [if_pos rfl] at hp
      have hidx : ((0 : ℤ) * (200 : ℕ) + (x : ℤ)) * 3 + 1 =
          ((0 : ℤ) * 200 + 0 + (x : ℤ)) * 3 + 1 := by
        push_cast
        ring
      rw [hidx, hp]
      simp [hx199]
    · have hx' : x = 199 := by omega
      subst hx'
      have hidx : ((0 : ℤ) * (200 : ℕ) + ((199 : ℕ) : ℤ)) * 3 + 1 =
          ((0 : ℤ) * 200 + 0 + 199) * 3 + 1 := by
        push_cast
      rw [hidx, drawLine_scenD_miss]
      decide
  rw [List.filter_congr hcong]
  decide

/-- Counterexample for C7: the Scenario-D line `(0,0)–(199,0)` in a
200-pixel-wide buffer is rasterized into 199 plotted pixels, not the
200 the claim states: the loop `for (x = x0; x < x1; ++x)` excludes the
final column. -/
theorem drawLine_scenarioD_ne_200 :
    countGreenRow (drawLine 200 (fun _ => 0) ((0 : ℤ), (0 : ℤ)) ((199 : ℤ), (0 : ℤ)))
      200 0 200 = 199 ∧
    countGreenRow (drawLine 200 (fun _ => 0) ((0 : ℤ), (0 : ℤ)) ((199 : ℤ), (0 : ℤ)))
      200 0 200 ≠ 200 := by
  refine ⟨countGreenRow_scenD, ?_⟩
  rw [countGreenRow_scenD]
  norm_num

/-- Claim C7 (amended): the clip-space segment corresponding to the
pixel line `(0,0)–(199,0)` is trivially accepted unchanged by the
clipper (both endpoints inside, on the boundary of `[-1,1]×[-1,1]`),
its endpoints convert to pixel columns 0 and 199 on row 0, and the
rasterizer plots the outline color on exactly 199 pixels — columns 0
through 198 of row 0 — leaving the final column `x = 199` unwritten. -/
theorem drawLine_scenarioD_amended :
    clipToViewPort ⟨-1, -1, 1, 1⟩ ((-1 : ℚ), (1 : ℚ)) ((99 / 100 : ℚ), (1 : ℚ)) =
      .accepted (-1, 1) (99 / 100, 1) ∧
    toU32 (((99 / 100 : ℚ) + 1) / 2 * 200) = 199 ∧
    toU32 ((1 - (1 : ℚ)) / 2 * 200) = 0 ∧
    countGreenRow (drawLine 200 (fun _ => 0) ((0 : ℤ), (0 : ℤ)) ((199 : ℤ), (0 : ℤ)))
      200 0 200 = 199 ∧
    drawLine 200 (fun _ => 0) ((0 : ℤ), (0 : ℤ)) ((199 : ℤ), (0 : ℤ))
      (((0 : ℤ) * 200 + 0 + 199) * 3 + 1) = 0 := by
  refine ⟨?_, ?_, ?_, countGreenRow_scenD, drawLine_scenD_miss⟩
  · have l1 : locationRelativeToViewPort ⟨-1, -1, 1, 1⟩ (-1) 1 = 0 := by
      unfold locationRelativeToViewPort hcode vcode
      norm_num
    have l2 : locationRelativeToViewPort ⟨-1, -1, 1, 1⟩ (99 / 100) 1 = 0 := by
      unfold locationRelativeToViewPort hcode vcode
      norm_num
    have hz : (initState ⟨-1, -1, 1, 1⟩ ((-1 : ℚ), 1) ((99 / 100 : ℚ), 1)).loc0 |||
        (initState ⟨-1, -1, 1, 1⟩ ((-1 : ℚ), 1) ((99 / 100 : ℚ), 1)).loc1 = 0 := by
      show locationRelativeToViewPort ⟨-1, -1, 1, 1⟩ (-1) 1 |||
        locationRelativeToViewPort ⟨-1, -1, 1, 1⟩ (99 / 100) 1 = 0
      rw [l1, l2]
      decide
    exact clipLoop_accept_eq _ 4 _ hz
  · unfold toU32
    rw [show ((99 / 100 : ℚ) + 1) / 2 * 200 = ((199 : ℕ) : ℚ) by norm_num,
      Int.floor_natCast]
    rfl
  · unfold toU32
    rw [show ((1 - (1 : ℚ)) / 2 * 200 : ℚ) = ((0 : ℕ) : ℚ) by norm_num,
      Int.floor_natCast]
    rfl

lemma clampQ_mem (v : ℚ) : -1 ≤ clampQ v (-1) 1 ∧ clampQ v (-1) 1 ≤ 1 := by
  unfold clampQ
  split_ifs with h1 h2 <;> constructor <;> linarith

lemma toU32_le (q : ℚ) (n : ℕ) (hq : q ≤ (n : ℚ)) : toU32 q ≤ n := by
  unfold toU32
  have h1 : ⌊q⌋ ≤ ((n : ℕ) : ℤ) := by
    have h2 := Int.floor_le_floor hq
    rw [Int.floor_natCast] at h2
    exact h2
  omega

/-- Counterexample for C8: the object with projected extrema
`min = (-2, -1/2)`, `max = (2, 1/2)` spans the whole viewport
horizontally — it is not fully off-screen — yet `FullBoundingBoxes`
discards it, so the discard condition does not identify exactly the
fully off-screen objects. -/
theorem fullBoxStep_discard_not_offscreen :
    fullBoxStep 200 200 ((-2 : ℚ), (-1 / 2 : ℚ)) ((2 : ℚ), (1 / 2 : ℚ)) = none ∧
    ¬ FullyOffscreen ((-2 : ℚ), (-1 / 2 : ℚ)) ((2 : ℚ), (1 / 2 : ℚ)) := by
  constructor
  · unfold fullBoxStep
    rw [if_pos (Or.inl ⟨by norm_num, by norm_num⟩)]
  · unfold FullyOffscreen
    norm_num

/-- Claim C8 (amended): in the full-projection 2D path an object is
discarded iff its projected extrema satisfy `|min| > 1 ∧ |max| > 1` on
some axis; every fully off-screen object satisfies that condition (the
condition is sufficient but not exact — it also discards objects whose
extent spans the whole viewport); a surviving object's extrema are
converted to pixel coordinates with the max corner clamped above by
the image bounds and the min corner clamped below by 0 (landing in
`[0, width]` / `[0, height]`). -/
theorem fullBoxStep_discard_amended (w h : ℕ) (mn mx : ℚ × ℚ)
    (hm : mn.1 ≤ mx.1 ∧ mn.2 ≤ mx.2) :
    (fullBoxStep w h mn mx = none ↔
      (1 < |mn.1| ∧ 1 < |mx.1|) ∨ (1 < |mn.2| ∧ 1 < |mx.2|)) ∧
    (FullyOffscreen mn mx → fullBoxStep w h mn mx = none) ∧
    ((convertToScreenCoord w h mn mx).2.1 ≤ w - 1 ∧
      (convertToScreenCoord w h mn mx).2.2 ≤ h - 1 ∧
      (convertToScreenCoord w h mn mx).1.1 ≤ w ∧
      (convertToScreenCoord w h mn mx).1.2 ≤ h) := by
  have hiff : fullBoxStep w h mn mx = none ↔
      (1 < |mn.1| ∧ 1 < |mx.1|) ∨ (1 < |mn.2| ∧ 1 < |mx.2|) := by
    unfold fullBoxStep
    by_cases hc : (1 < |mn.1| ∧ 1 < |mx.1|) ∨ (1 < |mn.2| ∧ 1 < |mx.2|)
    · rw [if_pos hc]
      simp [hc]
    · rw [if_neg hc]
      simp [hc]
  refine ⟨hiff, ?_, ?_, ?_, ?_, ?_⟩
  · intro hoff
    apply hiff.2
    rcases hoff with hcase | hcase | hcase | hcase
    · exact Or.inl ⟨lt_abs.2 (Or.inr (by linarith [hm.1])),
        lt_abs.2 (Or.inr (by linarith))⟩
    · exact Or.inl ⟨lt_abs.2 (Or.inl (by linarith)),
        lt_abs.2 (Or.inl (by linarith [hm.1]))⟩
    · exact Or.inr ⟨lt_abs.2 (Or.inr (by linarith [hm.2])),
        lt_abs.2 (Or.inr (by linarith))⟩
    · exact Or.inr ⟨lt_abs.2 (Or.inl (by linarith)),
        lt_abs.2 (Or.inl (by linarith [hm.2]))⟩
  · exact min_le_right _ _
  · exact min_le_right _ _
  · have hcl := clampQ_mem mn.1
    refine max_le (Nat.zero_le w) (toU32_le _ w ?_)
    have hw : (0 : ℚ) ≤ (w : ℚ) := Nat.cast_nonneg w
    nlinarith [hcl.2]
  · have hcl := clampQ_mem mn.2
    refine max_le (Nat.zero_le h) (toU32_le _ h ?_)
    have hh : (0 : ℚ) ≤ (h : ℚ) := Nat.cast_nonneg h
    nlinarith [hcl.1]

/-- Witness for C8 at the counterexample extrema. -/
theorem fullBoxStep_discard_amended_witness :
    fullBoxStep 200 200 ((-2 : ℚ), (-1 / 2 : ℚ)) ((2 : ℚ), (1 / 2 : ℚ)) = none ↔
      (1 < |(-2 : ℚ)| ∧ 1 < |(2 : ℚ)|) ∨ (1 < |(-1 / 2 : ℚ)| ∧ 1 < |(1 / 2 : ℚ)|) :=
  (fullBoxStep_discard_amended 200 200 ((-2 : ℚ), (-1 / 2 : ℚ)) ((2 : ℚ), (1 / 2 : ℚ))
    ⟨by norm_num, by norm_num⟩).1

end GzBBox
